import Mathlib

/-!
Verification development for the outbound-call campaign scheduler/dispatcher
(src/controllers/campaign_controller.py, src/controllers/scheduler_controller.py,
src/services/redis_service.py, src/services/campaign_service.py,
src/models/campaign.py).

The Python sources are embedded shallowly: pure functions become Lean
functions, the Redis coordination store becomes an explicit state record,
stateful controller methods become explicit state-passing functions, and code
that can raise an exception returns Option.  Wall-clock instants are modelled
as integer seconds; Python ints are Lean Int; Python strings are Lean String,
except inside the JSON/serialization model where a string is its list of
characters (code points).
-/

namespace Aitele

/-! ## Campaign policy: time-of-day windows (campaign_service.py) -/

/-- One raw entry of the decoded time_of_day list, as seen by the loop body of
CampaignService._parse_time_windows: either not a dict (skipped by the
isinstance check), or a dict whose four keys are optional integers (an absent
key takes the default the source supplies to item.get).  Values on which
Python int() would raise are folded into TodField.malformed below, because the
exception aborts the whole parse. -/
inductive TodItem where
  | notDict
  | item (fromHour fromMinute toHour toMinute : Option Int)
deriving DecidableEq, Repr

/-- The campaign.time_of_day field as seen by _parse_time_windows: a falsy
value (None, empty string, empty-ish), a malformed value (json decode error,
non-list decode result is handled separately, int() failure — any path that
ends in the except branch or the isinstance-list check), or a decoded list of
entries. -/
inductive TodField where
  | empty
  | notAList
  | malformed
  | entries (l : List TodItem)
deriving DecidableEq, Repr

/-- A parsed window with the four clamped integer fields. -/
structure Window where
  fromHour : Int
  fromMinute : Int
  toHour : Int
  toMinute : Int
deriving DecidableEq, Repr

/-- Python max(0, min(hi, v)). -/
def clampTo (hi v : Int) : Int := max 0 (min hi v)

/-- CampaignService._parse_time_windows: tolerant parse of time_of_day into a
list of windows with hours clamped to [0,23] and minutes to [0,59]; non-dict
entries are skipped; absent keys default to fromHour=0, fromMinute=0,
toHour=23, toMinute=59; every failure path returns the empty list. -/
def parse_time_windows : TodField → List Window
  | .empty => []
  | .notAList => []
  | .malformed => []
  | .entries l =>
    l.filterMap fun
      | .notDict => Option.none
      | .item fh fm th tm =>
        Option.some
          { fromHour := clampTo 23 (fh.getD 0)
            fromMinute := clampTo 59 (fm.getD 0)
            toHour := clampTo 23 (th.getD 23)
            toMinute := clampTo 59 (tm.getD 59) }

/-- Start of a window in minutes since midnight (w.get("fromHour", 0) * 60 +
w.get("fromMinute", 0); the parse always supplies the keys). -/
def windowStart (w : Window) : Int := w.fromHour * 60 + w.fromMinute

/-- End of a window in minutes since midnight. -/
def windowEnd (w : Window) : Int := w.toHour * 60 + w.toMinute

/-- CampaignService.is_within_time_of_day: true when no window is configured;
otherwise true iff some window with start < end contains now_minutes in
[start, end).  Zero-length windows are skipped by the start == end continue;
the overnight branch (start > end) is commented out in the source, so such
windows never match. -/
def is_within_time_of_day (tod : TodField) (nowHour nowMinute : Int) : Bool :=
  let windows := parse_time_windows tod
  if windows.isEmpty then true
  else
    let nowMinutes := nowHour * 60 + nowMinute
    windows.any fun w =>
      if windowStart w == windowEnd w then false
      else if windowStart w < windowEnd w then
        decide (windowStart w ≤ nowMinutes) && decide (nowMinutes < windowEnd w)
      else false

/-! ## Campaign policy: absolute window (campaign_service.py, campaign.py) -/

/-- A Python datetime as consumed by the absolute-window check: the wall-clock
reading in seconds, and the utcoffset in seconds when the value is
timezone-aware (none = naive). -/
structure PyDatetime where
  wall : Int
  tzOffset : Option Int
deriving DecidableEq, Repr

/-- The absolute UTC instant produced by the to_aware_utc helper of
CampaignService._is_time_valid_safe (and of Campaign.is_time_valid, which has
the same body): a naive value gets tzinfo=timezone.utc attached via replace,
so its wall-clock reading is taken as the UTC instant; an aware value is
converted, so the instant is wall minus offset. -/
def to_aware_utc (dt : PyDatetime) : Int :=
  match dt.tzOffset with
  | Option.none => dt.wall
  | Option.some off => dt.wall - off

/-- CampaignService._is_time_valid_safe, with datetime.now(timezone.utc)
supplied as the integer instant nowUtc: start_ok = start is None or
start_utc <= now_utc; end_ok = end is None or end_utc > now_utc. -/
def is_time_valid_safe (start_time end_time : Option PyDatetime) (nowUtc : Int) : Bool :=
  let start_ok := match start_time with
    | Option.none => true
    | Option.some d => decide (to_aware_utc d ≤ nowUtc)
  let end_ok := match end_time with
    | Option.none => true
    | Option.some d => decide (to_aware_utc d > nowUtc)
  start_ok && end_ok

/-- Modelled from the spec: the instant assignment the specification describes
for the absolute-window check, under which a naive timestamp is interpreted in
the operating zone UTC+7 (offset 25200 seconds), not UTC. -/
def spec_instant_utc7 (dt : PyDatetime) : Int :=
  match dt.tzOffset with
  | Option.none => dt.wall - 25200
  | Option.some off => dt.wall - off

/-- Modelled from the spec: the absolute-window check as the specification
states it (naive timestamps read as UTC+7, missing bound open, start <= now
and now < end). -/
def spec_time_valid (start_time end_time : Option PyDatetime) (nowUtc : Int) : Bool :=
  let start_ok := match start_time with
    | Option.none => true
    | Option.some d => decide (spec_instant_utc7 d ≤ nowUtc)
  let end_ok := match end_time with
    | Option.none => true
    | Option.some d => decide (nowUtc < spec_instant_utc7 d)
  start_ok && end_ok

/-! ## JSON model (json.dumps / json.loads as used by redis_service.py)

save_failure_and_schedule_retry serializes dict/list payload fields with
json.dumps (default options: ensure_ascii=True, separators (", ", ": ")) and
everything else with str(); get_call_payload tries json.loads on every stored
field and keeps the raw string when that fails.  PyVal models the Python
values a payload dictionary can hold.  Floating point numbers are outside the
shallow embedding; the parser records a float-syntax token verbatim as
floatLit so it stays total, and every theorem that needs the serializer is
restricted to float-free values. -/

/-- A Python value in a retry payload (dict keys are strings, as json.dumps
requires for faithful round-tripping; strings are lists of code points). -/
inductive PyVal where
  | str (s : List Char)
  | int (n : Int)
  | bool (b : Bool)
  | noneV
  | floatLit (s : List Char)
  | list (l : List PyVal)
  | dict (d : List (List Char × PyVal))
deriving Repr

mutual

/-- True when the value contains no float anywhere. -/
def noFloat : PyVal → Bool
  | .str _ => true
  | .int _ => true
  | .bool _ => true
  | .noneV => true
  | .floatLit _ => false
  | .list l => noFloatList l
  | .dict d => noFloatDict d

/-- noFloat on the elements of a list. -/
def noFloatList : List PyVal → Bool
  | [] => true
  | v :: vs => noFloat v && noFloatList vs

/-- noFloat on the values of a dict. -/
def noFloatDict : List (List Char × PyVal) → Bool
  | [] => true
  | (_, v) :: es => noFloat v && noFloatDict es

end

/-- Hex digit character used by the \uXXXX escapes ('%04x' formatting:
lowercase). -/
def hexDigitChar (n : Nat) : Char :=
  if n < 10 then Char.ofNat (48 + n) else Char.ofNat (87 + n)

/-- The four hex digits of a code unit below 0x10000, most significant
first. -/
def toHex4 (n : Nat) : List Char :=
  [hexDigitChar (n / 4096 % 16), hexDigitChar (n / 256 % 16),
   hexDigitChar (n / 16 % 16), hexDigitChar (n % 16)]

/-- Value of one hex digit (json accepts both cases). -/
def hexVal (c : Char) : Option Nat :=
  if 48 ≤ c.toNat ∧ c.toNat ≤ 57 then Option.some (c.toNat - 48)
  else if 97 ≤ c.toNat ∧ c.toNat ≤ 102 then Option.some (c.toNat - 87)
  else if 65 ≤ c.toNat ∧ c.toNat ≤ 70 then Option.some (c.toNat - 55)
  else Option.none

/-- Value of the four hex digits of a \uXXXX escape. -/
def hexQuad (a b c d : Char) : Option Nat :=
  match hexVal a, hexVal b, hexVal c, hexVal d with
  | Option.some x, Option.some y, Option.some z, Option.some w =>
    Option.some (((x * 16 + y) * 16 + z) * 16 + w)
  | _, _, _, _ => Option.none

/-- Accumulator loop producing the decimal digits of n, least significant
digit pushed first (the fuel bounds the digit count; the caller passes n + 1,
which always suffices). -/
def natToCharsAux : Nat → Nat → List Char → List Char
  | 0, _, acc => acc
  | Nat.succ fuel, n, acc =>
    if n < 10 then Nat.digitChar n :: acc
    else natToCharsAux fuel (n / 10) (Nat.digitChar (n % 10) :: acc)

/-- Decimal digits of a natural number, most significant first (canonical:
no leading zeros, "0" for zero).  This is how both str(int) and json.dumps
render a non-negative integer. -/
def natToChars (n : Nat) : List Char := natToCharsAux (n + 1) n []

/-- Decimal rendering of a Python int (str(int) and the json integer
production agree on it). -/
def intToChars (n : Int) : List Char :=
  if n < 0 then '-' :: natToChars n.natAbs else natToChars n.toNat

/-- json.dumps escaping of one character with ensure_ascii=True
(py_encode_basestring_ascii): the two-character named escapes, printable
ASCII verbatim, everything else as \uXXXX with a surrogate pair above
0xFFFF. -/
def escapeChar (c : Char) : List Char :=
  if c = '"' then ['\\', '"']
  else if c = '\\' then ['\\', '\\']
  else if c.toNat = 8 then ['\\', 'b']
  else if c.toNat = 9 then ['\\', 't']
  else if c.toNat = 10 then ['\\', 'n']
  else if c.toNat = 12 then ['\\', 'f']
  else if c.toNat = 13 then ['\\', 'r']
  else if 32 ≤ c.toNat ∧ c.toNat ≤ 126 then [c]
  else if c.toNat < 65536 then '\\' :: 'u' :: toHex4 c.toNat
  else
    ('\\' :: 'u' :: toHex4 (55296 + (c.toNat - 65536) / 1024)) ++
    ('\\' :: 'u' :: toHex4 (56320 + (c.toNat - 65536) % 1024))

/-- json.dumps rendering of a string body. -/
def escapeStr (s : List Char) : List Char := s.flatMap escapeChar

mutual

/-- json.dumps with the default separators (", " between items, ": " after a
key).  floatLit tokens are emitted verbatim (repr of a float); they never
occur in the values the theorems quantify over. -/
def dumps : PyVal → List Char
  | .str s => '"' :: (escapeStr s ++ ['"'])
  | .int n => intToChars n
  | .bool true => ['t', 'r', 'u', 'e']
  | .bool false => ['f', 'a', 'l', 's', 'e']
  | .noneV => ['n', 'u', 'l', 'l']
  | .floatLit s => s
  | .list l => '[' :: (dumpsList l ++ [']'])
  | .dict d => '{' :: (dumpsDict d ++ ['}'])

/-- Comma-separated renderings of the elements of a list. -/
def dumpsList : List PyVal → List Char
  | [] => []
  | [v] => dumps v
  | v :: vs => dumps v ++ ',' :: ' ' :: dumpsList vs

/-- Comma-separated renderings of the entries of a dict. -/
def dumpsDict : List (List Char × PyVal) → List Char
  | [] => []
  | [(k, v)] => dumpsEntry k v
  | (k, v) :: es => dumpsEntry k v ++ ',' :: ' ' :: dumpsDict es

/-- Rendering of one key: value pair. -/
def dumpsEntry (k : List Char) (v : PyVal) : List Char :=
  '"' :: (escapeStr k ++ '"' :: ':' :: ' ' :: dumps v)

end

/-- The whitespace characters the json scanner skips. -/
def isJsonWs (c : Char) : Bool :=
  c = ' ' || c = '\t' || c = '\n' || c = '\r'

/-- Skip leading json whitespace. -/
def skipWs : List Char → List Char
  | [] => []
  | c :: cs => if isJsonWs c then skipWs cs else c :: cs

/-- Prefix a character onto the string being accumulated by the string
scanner. -/
def consRes (c : Char) : Option (List Char × List Char) → Option (List Char × List Char)
  | Option.some p => Option.some (c :: p.1, p.2)
  | Option.none => Option.none

/-- Decoded character of a named (non-\u) backslash escape, none when the
escape is invalid. -/
def escDecode (e : Char) : Option Char :=
  if e = '"' then Option.some '"'
  else if e = '\\' then Option.some '\\'
  else if e = '/' then Option.some '/'
  else if e = 'b' then Option.some (Char.ofNat 8)
  else if e = 't' then Option.some (Char.ofNat 9)
  else if e = 'n' then Option.some (Char.ofNat 10)
  else if e = 'f' then Option.some (Char.ofNat 12)
  else if e = 'r' then Option.some (Char.ofNat 13)
  else Option.none

/-- Decoding of a \uXXXX escape, starting right after the "u": the four hex
digits, with surrogate-pair combination when the first code unit is a high
surrogate (consuming a second \uXXXX).  Lone surrogates are rejected (a Lean
Char is a Unicode scalar value, so the strings Python would build from them
are not representable here).  Returns the decoded character and the rest of
the input. -/
def parseUEsc : List Char → Option (Char × List Char)
  | a :: b :: c1 :: d :: cs3 =>
    match hexQuad a b c1 d with
    | Option.none => Option.none
    | Option.some code =>
      if code < 55296 ∨ 57344 ≤ code then Option.some (Char.ofNat code, cs3)
      else if code < 56320 then
        match cs3 with
        | e1 :: e2 :: a2 :: b2 :: c2 :: d2 :: cs4 =>
          if e1 = '\\' ∧ e2 = 'u' then
            match hexQuad a2 b2 c2 d2 with
            | Option.some lo =>
              if 56320 ≤ lo ∧ lo < 57344 then
                Option.some (Char.ofNat (65536 + (code - 55296) * 1024 + (lo - 56320)), cs4)
              else Option.none
            | Option.none => Option.none
          else Option.none
        | _ => Option.none
      else Option.none
  | _ => Option.none

/-- Body of a json string after the opening quote (py_scanstring, strict
mode): literal characters up to the closing quote, backslash escapes, \uXXXX
escapes.  Every step consumes at least one character, so the fuel the callers
pass (input length + 1) never runs out before the scan ends. -/
def parseStrBody : Nat → List Char → Option (List Char × List Char)
  | 0, _ => Option.none
  | Nat.succ fuel, input =>
    match input with
    | [] => Option.none
    | c :: cs =>
      if c = '"' then Option.some ([], cs)
      else if c = '\\' then
        match cs with
        | [] => Option.none
        | e :: cs2 =>
          if e = 'u' then
            match parseUEsc cs2 with
            | Option.some p => consRes p.1 (parseStrBody fuel p.2)
            | Option.none => Option.none
          else
            match escDecode e with
            | Option.some out => consRes out (parseStrBody fuel cs2)
            | Option.none => Option.none
      else if c.toNat < 32 then Option.none
      else consRes c (parseStrBody fuel cs)

/-- Maximal prefix of decimal digits. -/
def scanDigits : List Char → List Char × List Char
  | [] => ([], [])
  | c :: cs =>
    if c.isDigit then
      let p := scanDigits cs
      (c :: p.1, p.2)
    else ([], c :: cs)

/-- Numeric value of a digit string, most significant first. -/
def digitsVal (ds : List Char) : Nat :=
  ds.foldl (fun a c => a * 10 + (c.toNat - 48)) 0

/-- Expect a fixed sequence of characters. -/
def expectChars : List Char → List Char → Option (List Char)
  | [], input => Option.some input
  | p :: ps, input =>
    match input with
    | c :: cs => if c = p then expectChars ps cs else Option.none
    | [] => Option.none

/-- Scan an optional json exponent part; returns its characters (empty when
absent).  Mirrors NUMBER_RE: an 'e' not followed by digits is not part of the
number. -/
def scanExpPart : List Char → List Char × List Char
  | input =>
    match input with
    | c :: cs =>
      if c = 'e' ∨ c = 'E' then
        match cs with
        | s :: cs2 =>
          if s = '+' ∨ s = '-' then
            match scanDigits cs2 with
            | ([], _) => ([], input)
            | (ds, r) => (c :: s :: ds, r)
          else
            match scanDigits cs with
            | ([], _) => ([], input)
            | (ds, r) => (c :: ds, r)
        | [] => ([], input)
      else ([], input)
    | [] => ([], input)

/-- Scan an optional json fraction part; returns its characters (empty when
absent). -/
def scanFracPart : List Char → List Char × List Char
  | input =>
    match input with
    | c :: cs =>
      if c = '.' then
        match scanDigits cs with
        | ([], _) => ([], input)
        | (ds, r) => ('.' :: ds, r)
      else ([], input)
    | [] => ([], input)

/-- The json number production (NUMBER_RE) applied after an optional leading
minus has been recorded: integer part 0 | [1-9][0-9]*, optional fraction,
optional exponent.  A number with a fraction or exponent is a Python float
and is recorded verbatim as floatLit. -/
def parseNumCore (neg : Bool) (body : List Char) : Option (PyVal × List Char) :=
  let p := scanDigits body
  if p.1.isEmpty then Option.none
  else if p.1.length > 1 ∧ p.1.headD 'x' = '0' then Option.none
  else
    let fracP := scanFracPart p.2
    let expP := scanExpPart fracP.2
    if fracP.1.isEmpty ∧ expP.1.isEmpty then
      Option.some (.int (if neg then -(digitsVal p.1 : Int) else (digitsVal p.1 : Int)), p.2)
    else
      Option.some
        (.floatLit ((if neg then ['-'] else []) ++ p.1 ++ fracP.1 ++ expP.1), expP.2)

/-- Dispatch for a token that is not a string, array, object or one of the
word literals: a number, or one of the float constants Infinity / -Infinity
(NaN is handled by the caller). -/
def parseNum (input : List Char) : Option (PyVal × List Char) :=
  match input with
  | c :: r =>
    if c = '-' then
      match r with
      | c2 :: r2 =>
        if c2 = 'I' then
          match expectChars ['n', 'f', 'i', 'n', 'i', 't', 'y'] r2 with
          | Option.some r3 =>
            Option.some (.floatLit ['-', 'I', 'n', 'f', 'i', 'n', 'i', 't', 'y'], r3)
          | Option.none => Option.none
        else parseNumCore true r
      | [] => parseNumCore true []
    else parseNumCore false input
  | [] => parseNumCore false []

mutual

/-- One json value (py_make_scanner): leading whitespace is skipped, then the
first character selects the production.  The fuel argument only bounds the
nesting the parser will traverse; parse below supplies enough for any
input. -/
def parseVal : Nat → List Char → Option (PyVal × List Char)
  | 0, _ => Option.none
  | Nat.succ fuel, input =>
    match skipWs input with
    | [] => Option.none
    | c :: cs =>
      if c = '"' then
        match parseStrBody (cs.length + 1) cs with
        | Option.some p => Option.some (.str p.1, p.2)
        | Option.none => Option.none
      else if c = '[' then
        if (skipWs cs).headD 'x' = ']' then Option.some (.list [], (skipWs cs).tail)
        else
          match parseElems fuel cs with
          | Option.some p => Option.some (.list p.1, p.2)
          | Option.none => Option.none
      else if c = '{' then
        if (skipWs cs).headD 'x' = '}' then Option.some (.dict [], (skipWs cs).tail)
        else
          match parseMembers fuel cs with
          | Option.some p => Option.some (.dict p.1, p.2)
          | Option.none => Option.none
      else if c = 't' then
        match expectChars ['r', 'u', 'e'] cs with
        | Option.some r => Option.some (.bool true, r)
        | Option.none => Option.none
      else if c = 'f' then
        match expectChars ['a', 'l', 's', 'e'] cs with
        | Option.some r => Option.some (.bool false, r)
        | Option.none => Option.none
      else if c = 'n' then
        match expectChars ['u', 'l', 'l'] cs with
        | Option.some r => Option.some (.noneV, r)
        | Option.none => Option.none
      else if c = 'N' then
        match expectChars ['a', 'N'] cs with
        | Option.some r => Option.some (.floatLit ['N', 'a', 'N'], r)
        | Option.none => Option.none
      else if c = 'I' then
        match expectChars ['n', 'f', 'i', 'n', 'i', 't', 'y'] cs with
        | Option.some r =>
          Option.some (.floatLit ['I', 'n', 'f', 'i', 'n', 'i', 't', 'y'], r)
        | Option.none => Option.none
      else parseNum (c :: cs)

/-- The elements of a non-empty json array, up to and including the closing
bracket. -/
def parseElems : Nat → List Char → Option (List PyVal × List Char)
  | 0, _ => Option.none
  | Nat.succ fuel, input =>
    match parseVal fuel input with
    | Option.none => Option.none
    | Option.some (v, r1) =>
      match skipWs r1 with
      | c :: r2 =>
        if c = ',' then
          match parseElems fuel r2 with
          | Option.some p => Option.some (v :: p.1, p.2)
          | Option.none => Option.none
        else if c = ']' then Option.some ([v], r2)
        else Option.none
      | [] => Option.none

/-- The members of a non-empty json object, up to and including the closing
brace. -/
def parseMembers : Nat → List Char → Option (List (List Char × PyVal) × List Char)
  | 0, _ => Option.none
  | Nat.succ fuel, input =>
    match skipWs input with
    | c0 :: r1 =>
      if c0 = '"' then
        match parseStrBody (r1.length + 1) r1 with
        | Option.none => Option.none
        | Option.some (k, r2) =>
          match skipWs r2 with
          | c1 :: r3 =>
            if c1 = ':' then
              match parseVal fuel r3 with
              | Option.none => Option.none
              | Option.some (v, r4) =>
                match skipWs r4 with
                | c2 :: r5 =>
                  if c2 = ',' then
                    match parseMembers fuel r5 with
                    | Option.some p => Option.some ((k, v) :: p.1, p.2)
                    | Option.none => Option.none
                  else if c2 = '}' then Option.some ([(k, v)], r5)
                  else Option.none
                | [] => Option.none
            else Option.none
          | [] => Option.none
      else Option.none
    | [] => Option.none

end

mutual

/-- Fuel that suffices for parseVal to scan the rendering of a value. -/
def mval : PyVal → Nat
  | .str _ => 1
  | .int _ => 1
  | .bool _ => 1
  | .noneV => 1
  | .floatLit _ => 1
  | .list l => 1 + max 1 (needElems l)
  | .dict d => 1 + max 1 (needMembers d)

/-- Fuel that suffices for parseElems on a rendered element list. -/
def needElems : List PyVal → Nat
  | [] => 0
  | v :: vs => 1 + max (mval v) (needElems vs)

/-- Fuel that suffices for parseMembers on rendered members. -/
def needMembers : List (List Char × PyVal) → Nat
  | [] => 0
  | (_, v) :: es => 1 + max (mval v) (needMembers es)

end

/-- Characters that may legally follow a complete rendered json value inside
a larger rendering: a separator, a closing bracket, or end of input. -/
def goodFollow : List Char → Prop
  | [] => True
  | c :: _ => c = ',' ∨ c = ']' ∨ c = '}'

/-- json.loads on a whole input: one value, then only trailing whitespace.
The fuel passed to the scanner exceeds any nesting the input could hold. -/
def parse (s : List Char) : Option PyVal :=
  match parseVal (s.length + 1) s with
  | Option.some (v, r) => if skipWs r = [] then Option.some v else Option.none
  | Option.none => Option.none

/-- Python str() of a payload value, as used when a non-dict, non-list field
is stored (str on a str is the identity; ints render in decimal; True/False/
None render as their names).  Containers and floats reach this function in no
theorem below; their rendering is approximated by their json form. -/
def pyStr : PyVal → List Char
  | .str s => s
  | .int n => intToChars n
  | .bool true => ['T', 'r', 'u', 'e']
  | .bool false => ['F', 'a', 'l', 's', 'e']
  | .noneV => ['N', 'o', 'n', 'e']
  | .floatLit s => s
  | .list l => dumps (.list l)
  | .dict d => dumps (.dict d)

/-- The _maybe helper of get_call_payload: json.loads the stored field,
keeping the raw string when that fails. -/
def maybeJson (s : List Char) : PyVal :=
  match parse s with
  | Option.some v => v
  | Option.none => .str s

/-! ## Coordination store model (redis_service.py)

The store is one record: the success / in-progress sets (one set of
(campaign_id, member) pairs per key family), the per-campaign retry sorted
set, the call:{call_id} hashes, and the call_requests list. -/

/-- One member of a sorted set: the member string and its score (the scores
written by this code are integer epochs). -/
abbrev ZEntry := String × Int

/-- A Redis sorted set. -/
abbrev ZSet := List ZEntry

/-- A stored hash: field name to stored string. -/
abbrev Hash := List (List Char × List Char)

/-- A payload dictionary as passed to save_failure_and_schedule_retry. -/
abbrev Payload := List (List Char × PyVal)

/-- The order ZRANGEBYSCORE enumerates a sorted set in: ascending score, ties
broken by the lexicographic order of the member. -/
def zLt (a b : ZEntry) : Bool := a.2 < b.2 || (a.2 == b.2 && a.1 < b.1)

/-- ZRANGEBYSCORE key -inf now LIMIT 0 1: the least due member, if any. -/
def zRangeByScoreHead (z : ZSet) (now : Int) : Option String :=
  match z.filter (fun e => e.2 ≤ now) with
  | [] => Option.none
  | e :: es => Option.some (es.foldl (fun best x => if zLt x best then x else best) e).1

/-- ZREM: drop a member. -/
def zrem (z : ZSet) (m : String) : ZSet := z.filter (fun e => e.1 ≠ m)

/-- ZADD key score member: insert or update the member's score. -/
def zAdd (z : ZSet) (m : String) (s : Int) : ZSet := (m, s) :: zrem z m

/-- The loop of the _POP_DUE_LUA script: up to limit times, take the least
member with score at most now, remove it, append it to the result.  The whole
loop runs inside one EVAL, so it is a single atomic step on the sorted
set. -/
def claim_due_retries_go (now : Int) : Nat → ZSet → List String × ZSet
  | 0, z => ([], z)
  | Nat.succ n, z =>
    match zRangeByScoreHead z now with
    | Option.none => ([], z)
    | Option.some id =>
      let rest := claim_due_retries_go now n (zrem z id)
      (id :: rest.1, rest.2)

/-- HSET with a mapping: the given fields are written, fields not mentioned
keep their old value. -/
def hSet (old new : Hash) : Hash :=
  new ++ old.filter (fun e => (new.lookup e.1).isNone)

/-- How save_failure_and_schedule_retry stores one payload field: dicts and
lists are json.dumps-encoded, everything else goes through str() (the two
non-container branches of the source both call str). -/
def serializeField : PyVal → List Char
  | .dict d => dumps (.dict d)
  | .list l => dumps (.list l)
  | v => pyStr v

/-- An outbound call request message as built by
CampaignService.create_call_message.  isRetry / originalCallId model keys
that are present only for retries (none = key absent). -/
structure CallMessage where
  callId : String
  tenantId : String
  campaignId : String
  campaignCode : String
  scriptId : Option String
  leadId : String
  leadPhoneNumber : String
  leadName : String
  timestamp : Int
  isRetry : Option Bool
  originalCallId : Option (Option String)
deriving DecidableEq, Repr

/-- The coordination store state. -/
structure RedisState where
  done : List (String × String)
  donePhone : List (String × String)
  inprog : List (String × String)
  inprogPhone : List (String × String)
  retry : List (String × ZSet)
  hashes : List (String × Hash)
  requests : List CallMessage
deriving Repr

/-- An empty store. -/
def RedisState.empty : RedisState := ⟨[], [], [], [], [], [], []⟩

/-- SADD on one of the pair-set families. -/
def sAdd (s : List (String × String)) (cid m : String) : List (String × String) :=
  if (cid, m) ∈ s then s else (cid, m) :: s

/-- SISMEMBER. -/
def sMem (s : List (String × String)) (cid m : String) : Bool :=
  decide ((cid, m) ∈ s)

/-- SREM. -/
def sRem (s : List (String × String)) (cid m : String) : List (String × String) :=
  s.filter (fun e => e ≠ (cid, m))

/-- The camp:cid:retry sorted set. -/
def zsetOf (r : RedisState) (cid : String) : ZSet :=
  (r.retry.lookup cid).getD []

/-- Replace the camp:cid:retry sorted set. -/
def setZset (r : RedisState) (cid : String) (z : ZSet) : RedisState :=
  { r with retry := (cid, z) :: r.retry.filter (fun e => e.1 ≠ cid) }

/-- RedisService.mark_lead_success: SADD camp:cid:done. -/
def mark_lead_success (cid lid : String) (r : RedisState) : RedisState :=
  { r with done := sAdd r.done cid lid }

/-- RedisService.is_lead_success. -/
def is_lead_success (cid lid : String) (r : RedisState) : Bool := sMem r.done cid lid

/-- RedisService.mark_phone_success: SADD camp:cid:done_phone. -/
def mark_phone_success (cid phone : String) (r : RedisState) : RedisState :=
  { r with donePhone := sAdd r.donePhone cid phone }

/-- RedisService.is_phone_success. -/
def is_phone_success (cid phone : String) (r : RedisState) : Bool := sMem r.donePhone cid phone

/-- RedisService.mark_inprogress: SADD camp:cid:inprogress. -/
def mark_inprogress (cid lid : String) (r : RedisState) : RedisState :=
  { r with inprog := sAdd r.inprog cid lid }

/-- RedisService.clear_inprogress: SREM camp:cid:inprogress. -/
def clear_inprogress (cid lid : String) (r : RedisState) : RedisState :=
  { r with inprog := sRem r.inprog cid lid }

/-- RedisService.is_inprogress. -/
def is_inprogress (cid lid : String) (r : RedisState) : Bool := sMem r.inprog cid lid

/-- RedisService.mark_phone_inprogress: SADD camp:cid:inprog_phone. -/
def mark_phone_inprogress (cid phone : String) (r : RedisState) : RedisState :=
  { r with inprogPhone := sAdd r.inprogPhone cid phone }

/-- RedisService.clear_phone_inprogress: SREM camp:cid:inprog_phone. -/
def clear_phone_inprogress (cid phone : String) (r : RedisState) : RedisState :=
  { r with inprogPhone := sRem r.inprogPhone cid phone }

/-- RedisService.is_phone_inprogress. -/
def is_phone_inprogress (cid phone : String) (r : RedisState) : Bool :=
  sMem r.inprogPhone cid phone

/-- RedisService.save_failure_and_schedule_retry: inside one MULTI/EXEC
pipeline, HSET call:{call_id} with the serialized payload fields and ZADD the
call onto camp:{cid}:retry with score now + delay_seconds.  The pipeline is
transactional, so this is a single atomic step. -/
def save_failure_and_schedule_retry (cid call_id : String) (payload : Payload)
    (delay_seconds : Int) (nowT : Int) (r : RedisState) : RedisState :=
  let mapping : Hash := payload.map (fun e => (e.1, serializeField e.2))
  let oldh := (r.hashes.lookup call_id).getD []
  let r1 := { r with hashes :=
    (call_id, hSet oldh mapping) :: r.hashes.filter (fun e => e.1 ≠ call_id) }
  setZset r1 cid (zAdd (zsetOf r1 cid) call_id (nowT + delay_seconds))

/-- RedisService.save_success_and_finalize: DEL call:{call_id}. -/
def save_success_and_finalize (call_id : String) (r : RedisState) : RedisState :=
  { r with hashes := r.hashes.filter (fun e => e.1 ≠ call_id) }

/-- RedisService.remove_retry: ZREM camp:{cid}:retry call_id. -/
def remove_retry (cid call_id : String) (r : RedisState) : RedisState :=
  setZset r cid (zrem (zsetOf r cid) call_id)

/-- RedisService.claim_due_retries: run the atomic pop-due script on
camp:{cid}:retry with now = the current epoch; returns the claimed ids and
the store with them removed. -/
def claim_due_retries (cid : String) (limit : Nat) (nowT : Int) (r : RedisState) :
    List String × RedisState :=
  let res := claim_due_retries_go nowT limit (zsetOf r cid)
  (res.1, setZset r cid res.2)

/-- RedisService.get_call_payload: HGETALL call:{call_id}, then try
json.loads on every field, keeping the raw string where that fails. -/
def get_call_payload (call_id : String) (r : RedisState) : Payload :=
  ((r.hashes.lookup call_id).getD []).map (fun e => (e.1, maybeJson e.2))

/-- RedisService.send_call_request: LPUSH onto call_requests.  (Defined by
the service; the campaign worker never invokes it.) -/
def send_call_request (m : CallMessage) (r : RedisState) : RedisState :=
  { r with requests := m :: r.requests }

/-! ## Callback consumer (scheduler_controller.py _handle_call_callback)

The handler only issues coordination-store calls, so its behaviour is
captured as the ordered trace of operations it performs. -/

/-- The retry payload dictionary built by _handle_call_callback. -/
structure RetryPayload where
  campaign_id : String
  lead_id : String
  phone : String
  attempt : Int
  max_attempts : Int
  retry_interval_s : Int
  call_id : String
  last_outcome : String
deriving DecidableEq, Repr

/-- One coordination-store operation, in the order the handler awaits it. -/
inductive ROp where
  | markLeadSuccess (cid lid : String)
  | markPhoneSuccess (cid phone : String)
  | saveSuccessAndFinalize (callId : String)
  | removeRetry (cid callId : String)
  | saveFailureAndScheduleRetry (cid callId : String) (payload : RetryPayload) (delaySeconds : Int)
  | clearInprogress (cid lid : String)
  | clearPhoneInprogress (cid phone : String)
deriving DecidableEq, Repr

/-- A callback message, with the defaults the handler applies on absent keys
(attempt 0, maxAttempts 3, retryInterval 300) already substituted. -/
structure CallbackData where
  callId : String
  status : String
  campaignId : String
  leadId : String
  leadPhoneNumber : String
  attempt : Int
  maxAttempts : Int
  retryInterval : Int
deriving DecidableEq, Repr

/-- The retry payload _handle_call_callback builds for a failed call, with
attempt bumped to attempt + 1. -/
def retry_payload_of (cb : CallbackData) : RetryPayload :=
  { campaign_id := cb.campaignId
    lead_id := cb.leadId
    phone := cb.leadPhoneNumber
    attempt := cb.attempt + 1
    max_attempts := cb.maxAttempts
    retry_interval_s := cb.retryInterval
    call_id := cb.callId
    last_outcome := cb.status }

/-- SchedulerController._handle_call_callback as the ordered trace of store
operations it issues.  controllerFound selects between the fallback branch
(no active controller for the campaign: the scheduler's own redis service is
used) and the main branch (the controller's attached redis client is used);
redisPresent is the truthiness of that client. -/
def handle_call_callback (cb : CallbackData) (controllerFound redisPresent : Bool) :
    List ROp :=
  if controllerFound then
    (if cb.status == "SUCCESS" then
      (if redisPresent then
        [.markLeadSuccess cb.campaignId cb.leadId,
         .markPhoneSuccess cb.campaignId cb.leadPhoneNumber,
         .saveSuccessAndFinalize cb.callId,
         .removeRetry cb.campaignId cb.callId]
       else [])
     else if cb.attempt + 1 < cb.maxAttempts then
      (if redisPresent then
        [.saveFailureAndScheduleRetry cb.campaignId cb.callId (retry_payload_of cb) cb.retryInterval]
       else [])
     else []) ++
    (if redisPresent then
      [.clearInprogress cb.campaignId cb.leadId,
       .clearPhoneInprogress cb.campaignId cb.leadPhoneNumber]
     else [])
  else
    (if cb.status == "SUCCESS" then
      (if redisPresent then
        [.markLeadSuccess cb.campaignId cb.leadId,
         .markPhoneSuccess cb.campaignId cb.leadPhoneNumber,
         .saveSuccessAndFinalize cb.callId,
         .removeRetry cb.campaignId cb.callId]
       else [])
     else
      (if cb.attempt + 1 < cb.maxAttempts ∧ redisPresent then
        [.saveFailureAndScheduleRetry cb.campaignId cb.callId (retry_payload_of cb) cb.retryInterval]
       else [])) ++
    (if redisPresent then
      [.clearInprogress cb.campaignId cb.leadId,
       .clearPhoneInprogress cb.campaignId cb.leadPhoneNumber]
     else [])

/-! ## Campaign worker (campaign_controller.py) -/

/-- The campaign record fields the worker and the policy read. -/
structure Campaign where
  id : String
  tenant_id : String
  name : String
  status : String
  start_time : Option PyDatetime
  end_time : Option PyDatetime
  script_id : Option String
  call_interval : Option Int
  max_call_time : Option Int
  time_of_day : TodField
  max_callback : Option Int
deriving Repr

/-- A lead (public.customers row, ids normalized to strings by the
repository). -/
structure Lead where
  id : String
  phone_number : String
  name : Option String
deriving DecidableEq, Repr

/-- Lead.get_display_name: self.name or "Lead {phone}" (an empty name is
falsy in Python, so it also falls back). -/
def get_display_name (l : Lead) : String :=
  match l.name with
  | Option.some n => if n = "" then "Lead " ++ l.phone_number else n
  | Option.none => "Lead " ++ l.phone_number

/-- CampaignService.create_call_message.  The isRetry / originalCallId keys
are only added when is_retry is set. -/
def create_call_message (call_id : String) (c : Campaign) (l : Lead)
    (is_retry : Bool) (original_call_id : Option String) (nowT : Int) : CallMessage :=
  { callId := call_id
    tenantId := c.tenant_id
    campaignId := c.id
    campaignCode := c.name
    scriptId := c.script_id
    leadId := l.id
    leadPhoneNumber := l.phone_number
    leadName := get_display_name l
    timestamp := nowT
    isRetry := if is_retry then Option.some true else Option.none
    originalCallId := if is_retry then Option.some original_call_id else Option.none }

/-- The in-memory state of one CampaignController. -/
structure WorkerState where
  is_running : Bool
  is_stopped : Bool
  finished : Bool
  last_call_time : List (String × Int)
  processed_leads : Nat
  last_campaign_call_at : Option Int
  redisAttached : Bool
  inprogress_local : List String
deriving Repr

/-- Overwrite a key in the last_call_time dictionary. -/
def updateAssoc (l : List (String × Int)) (k : String) (v : Int) : List (String × Int) :=
  (k, v) :: l.filter (fun e => e.1 ≠ k)

/-- CampaignController._should_make_call: skip when the lead or phone is in a
success or in-progress set (only consulted when a redis client is attached),
when the lead is in the local in-progress fallback set, when now is outside
the campaign's time-of-day windows, or when the lead was called less than 60
seconds ago. -/
def should_make_call (c : Campaign) (w : WorkerState) (r : RedisState) (lead : Lead)
    (nowT nowHour nowMinute : Int) : Bool :=
  let redisSkip :=
    w.redisAttached &&
      (is_lead_success c.id lead.id r || is_phone_success c.id lead.phone_number r ||
       is_inprogress c.id lead.id r || is_phone_inprogress c.id lead.phone_number r)
  if redisSkip then false
  else if lead.id ∈ w.inprogress_local then false
  else if ¬ is_within_time_of_day c.time_of_day nowHour nowMinute then false
  else
    match w.last_call_time.lookup lead.id with
    | Option.some t => if nowT - t < 60 then false else true
    | Option.none => true

/-- CampaignController._create_call: draw a fresh call_id (supplied here as
call_id), build the call message, invoke the no-op create_call_session
logging stub, record last_call_time[lead.id] = now, bump processed_leads,
mark the lead and phone in-progress in the store (when a client is attached)
and always in the local fallback set.  The built message is returned so its
fate is visible; the source never sends it anywhere, and the call_requests
list of the store is untouched. -/
def create_call (c : Campaign) (lead : Lead) (call_id : String) (nowT : Int)
    (w : WorkerState) (r : RedisState) : WorkerState × RedisState × CallMessage :=
  let message := create_call_message call_id c lead false Option.none nowT
  let w1 := { w with
    last_call_time := updateAssoc w.last_call_time lead.id nowT
    processed_leads := w.processed_leads + 1 }
  let r1 :=
    if w.redisAttached then
      mark_phone_inprogress c.id lead.phone_number (mark_inprogress c.id lead.id r)
    else r
  let w2 := { w1 with
    inprogress_local :=
      if lead.id ∈ w1.inprogress_local then w1.inprogress_local
      else lead.id :: w1.inprogress_local }
  (w2, r1, message)

/-- CampaignController._dial: the stub always reports FAILED. -/
def dial (_phone : PyVal) : String := "FAILED"

/-- Python whitespace accepted around the digits by int(str). -/
def pySpace (c : Char) : Bool :=
  c = ' ' || c = '\t' || c = '\n' || c = '\r' || c.toNat = 11 || c.toNat = 12

/-- Python int(str): optional surrounding whitespace, optional sign, decimal
digits (leading zeros allowed); anything else raises. -/
def parseIntStr (s : List Char) : Option Int :=
  let t := ((s.dropWhile pySpace).reverse.dropWhile pySpace).reverse
  match t with
  | '-' :: ds =>
    if ds ≠ [] ∧ ds.all Char.isDigit then Option.some (-(digitsVal ds : Int)) else Option.none
  | '+' :: ds =>
    if ds ≠ [] ∧ ds.all Char.isDigit then Option.some (digitsVal ds : Int) else Option.none
  | ds =>
    if ds ≠ [] ∧ ds.all Char.isDigit then Option.some (digitsVal ds : Int) else Option.none

/-- Python int() on a decoded payload value: ints pass through, bools are 0/1,
numeric strings parse, everything else raises (none).  Floats are outside the
model. -/
def pyToInt : PyVal → Option Int
  | .int n => Option.some n
  | .bool true => Option.some 1
  | .bool false => Option.some 0
  | .str s => parseIntStr s
  | _ => Option.none

/-- The body of the per-claimed-id loop of _process_campaign_once: load the
payload, extract lead_id / phone / attempt / max_attempts / retry_interval_s
(a missing phone key or a non-integer field raises, aborting the whole
iteration: none), dial (the stub always fails), then either reschedule with
attempt + 1 or finalize when attempts are exhausted. -/
def handle_due_retry (c : Campaign) (id : String) (nowT : Int) (r : RedisState) :
    Option RedisState :=
  let payload := get_call_payload id r
  let lead_id := String.mk (pyStr ((payload.lookup ("lead_id".toList)).getD .noneV))
  match payload.lookup ("phone".toList) with
  | Option.none => Option.none
  | Option.some phoneV =>
    match pyToInt ((payload.lookup ("attempt".toList)).getD (.int 0)),
          pyToInt ((payload.lookup ("max_attempts".toList)).getD (.int 3)),
          pyToInt ((payload.lookup ("retry_interval_s".toList)).getD (.int 300)) with
    | Option.some attempt, Option.some max_attempts, Option.some retry_interval_s =>
      if dial phoneV == "SUCCESS" then
        Option.some (save_success_and_finalize id (mark_lead_success c.id lead_id r))
      else if attempt + 1 < max_attempts then
        let payload2 := dictSet payload ("attempt".toList) (.int (attempt + 1))
        Option.some (save_failure_and_schedule_retry c.id id payload2 retry_interval_s nowT r)
      else
        Option.some (save_success_and_finalize id r)
    | _, _, _ => Option.none
where
  /-- payload["attempt"] = attempt + 1: in-place update, append when the key
  is somehow absent. -/
  dictSet (d : Payload) (k : List Char) (v : PyVal) : Payload :=
    if d.any (fun e => e.1 == k) then d.map (fun e => if e.1 == k then (e.1, v) else e)
    else d ++ [(k, v)]

/-- The for-loop over the claimed due ids. -/
def process_retries (c : Campaign) : List String → Int → RedisState → Option RedisState
  | [], _, r => Option.some r
  | id :: ids, nowT, r =>
    match handle_due_retry c id nowT r with
    | Option.some r1 => process_retries c ids nowT r1
    | Option.none => Option.none

/-- The new-lead phase of _process_campaign_once, applied to the outcome of
the retry phase (none when the retry phase raised): scan the pending leads
and create a call for the first one that passes _should_make_call. -/
def lead_scan (c : Campaign) (pending : List Lead) (newCallId : String)
    (nowT nowHour nowMinute : Int) (w : WorkerState) :
    Option RedisState → Option (Bool × WorkerState × RedisState)
  | Option.none => Option.none
  | Option.some r1 =>
    match pending.find? (fun lead => should_make_call c w r1 lead nowT nowHour nowMinute) with
    | Option.some lead =>
      let res := create_call c lead newCallId nowT w r1
      Option.some (true, res.1, res.2.1)
    | Option.none => Option.some (false, w, r1)

/-- The retry phase of _process_campaign_once: when a redis client is
attached, claim up to 10 due retries atomically and handle each inline. -/
def retry_phase (c : Campaign) (nowT : Int) (w : WorkerState) (r : RedisState) :
    Option RedisState :=
  if w.redisAttached then
    let claimed := claim_due_retries c.id 10 nowT r
    process_retries c claimed.1 nowT claimed.2
  else Option.some r

/-- CampaignController._process_campaign_once: when a redis client is
attached, claim up to 10 due retries and handle each inline; then — with no
guard on whether any retry was handled — scan the pending leads and create a
call for the first one that passes _should_make_call.  Returns whether a call
was created, or none when an exception escaped. -/
def process_campaign_once (c : Campaign) (pending : List Lead) (newCallId : String)
    (nowT nowHour nowMinute : Int) (w : WorkerState) (r : RedisState) :
    Option (Bool × WorkerState × RedisState) :=
  lead_scan c pending newCallId nowT nowHour nowMinute w (retry_phase c nowT w r)

/-- What one iteration of CampaignController.start did. -/
inductive LoopEvent where
  | finishedLoop
  | sleptOutOfWindow (seconds : Nat)
  | sleptPacing (seconds : ℚ)
  | madeCall
  | sleptIdle (seconds : Nat)
  | sleptError (seconds : Nat)
deriving DecidableEq, Repr

/-- One iteration of the while-loop of CampaignController.start: when the
loop guard fails the worker leaves the loop and sets _finished; when now is
outside the campaign's time-of-day windows it sleeps 30 s and loops again;
when the per-campaign pacing gap has not elapsed it sleeps the remainder
(at least half a second); otherwise it runs one processing pass, recording
last_campaign_call_at on a dispatch, sleeping 5 s when idle and 10 s when the
pass raised. -/
def start_loop_iter (c : Campaign) (pending : List Lead) (newCallId : String)
    (nowT nowHour nowMinute : Int) (w : WorkerState) (r : RedisState) :
    LoopEvent × WorkerState × RedisState :=
  if ¬ (w.is_running && ¬ w.is_stopped) then
    (.finishedLoop, { w with finished := true }, r)
  else if ¬ is_within_time_of_day c.time_of_day nowHour nowMinute then
    (.sleptOutOfWindow 30, w, r)
  else
    let pacing : Option ℚ :=
      match c.call_interval, w.last_campaign_call_at with
      | Option.some i, Option.some t =>
        if i > 0 ∧ nowT - t < i then
          Option.some (max (1 / 2 : ℚ) ((i : ℚ) - ((nowT - t : Int) : ℚ)))
        else Option.none
      | _, _ => Option.none
    match pacing with
    | Option.some d => (.sleptPacing d, w, r)
    | Option.none =>
      match process_campaign_once c pending newCallId nowT nowHour nowMinute w r with
      | Option.none => (.sleptError 10, w, r)
      | Option.some (true, w1, r1) =>
        (.madeCall, { w1 with last_campaign_call_at := Option.some nowT }, r1)
      | Option.some (false, w1, r1) => (.sleptIdle 5, w1, r1)

/-! ## Theorems -/

/-! ### Helper lemmas for the time-of-day policy -/

theorem clampTo_nonneg (hi v : Int) : 0 ≤ clampTo hi v := by
  unfold clampTo; omega

theorem clampTo_le (hi v : Int) (h : 0 ≤ hi) : clampTo hi v ≤ hi := by
  unfold clampTo; omega

theorem window_pred_iff (w : Window) (m : Int) :
    ((if windowStart w == windowEnd w then false
      else if windowStart w < windowEnd w then
        decide (windowStart w ≤ m) && decide (m < windowEnd w)
      else false) = true) ↔ (windowStart w ≤ m ∧ m < windowEnd w) := by
  by_cases heq : windowStart w = windowEnd w
  · simp [heq]
  · have : (windowStart w == windowEnd w) = false := by
      simpa using heq
    rw [this]
    by_cases hlt : windowStart w < windowEnd w
    · simp [hlt]
    · simp [hlt]
      omega

/-- C6: the time-of-day check passes when no valid window is configured
(empty, missing or malformed time_of_day all parse to no windows); otherwise
it passes exactly when some parsed window satisfies
start_minutes <= now_minutes < end_minutes, where now_minutes is
hour * 60 + minute of the supplied clock reading; windows are parsed with
hours clamped to [0,23] and minutes to [0,59]; a zero-length window never
matches (skipped) and a wrap-across-midnight window (start > end) never
matches (its branch is disabled in the source). -/
theorem C6_time_of_day_check (tod : TodField) (nowHour nowMinute : Int) :
    (is_within_time_of_day tod nowHour nowMinute = true ↔
      (parse_time_windows tod = [] ∨
        ∃ w ∈ parse_time_windows tod,
          windowStart w ≤ nowHour * 60 + nowMinute ∧
          nowHour * 60 + nowMinute < windowEnd w)) ∧
    (∀ w ∈ parse_time_windows tod,
      0 ≤ w.fromHour ∧ w.fromHour ≤ 23 ∧ 0 ≤ w.fromMinute ∧ w.fromMinute ≤ 59 ∧
      0 ≤ w.toHour ∧ w.toHour ≤ 23 ∧ 0 ≤ w.toMinute ∧ w.toMinute ≤ 59) := by
  constructor
  · unfold is_within_time_of_day
    by_cases h : (parse_time_windows tod).isEmpty
    · simp only [h, if_true]
      simp [List.isEmpty_iff.mp h]
    · simp only [h, if_false, Bool.false_eq_true]
      rw [List.any_eq_true]
      have hne : parse_time_windows tod ≠ [] := by
        intro hc; rw [hc] at h; simp at h
      constructor
      · rintro ⟨w, hw, hpred⟩
        exact Or.inr ⟨w, hw, (window_pred_iff w _).mp hpred⟩
      · rintro (hc | ⟨w, hw, hpred⟩)
        · exact absurd hc hne
        · exact ⟨w, hw, (window_pred_iff w _).mpr hpred⟩
  · intro w hw
    cases tod with
    | empty => simp [parse_time_windows] at hw
    | notAList => simp [parse_time_windows] at hw
    | malformed => simp [parse_time_windows] at hw
    | entries l =>
      rw [parse_time_windows, List.mem_filterMap] at hw
      obtain ⟨a, _, ha⟩ := hw
      cases a with
      | notDict => simp at ha
      | item fh fm th tm =>
        simp only [Option.some.injEq] at ha
        subst ha
        refine ⟨clampTo_nonneg _ _, clampTo_le _ _ (by omega), clampTo_nonneg _ _,
          clampTo_le _ _ (by omega), clampTo_nonneg _ _, clampTo_le _ _ (by omega),
          clampTo_nonneg _ _, clampTo_le _ _ (by omega)⟩

/-- Witness for C6 at a concrete window and clock reading. -/
theorem C6_time_of_day_check_witness :
    is_within_time_of_day
      (TodField.entries
        [TodItem.item (Option.some 9) (Option.some 0) (Option.some 10) (Option.some 0)])
      9 30 = true ∧
    (⟨9, 0, 10, 0⟩ : Window) ∈ parse_time_windows
      (TodField.entries
        [TodItem.item (Option.some 9) (Option.some 0) (Option.some 10) (Option.some 0)]) := by
  refine ⟨?_, by decide⟩
  exact (C6_time_of_day_check
    (TodField.entries
      [TodItem.item (Option.some 9) (Option.some 0) (Option.some 10) (Option.some 0)])
    9 30).1.mpr (Or.inr ⟨⟨9, 0, 10, 0⟩, by decide, by decide, by decide⟩)

/-- C5 counterexample: with a naive start_time whose wall-clock reading is
1970-01-01 07:00 (25200 s) and the real instant 00:30 UTC (= 07:30 in the
operating zone UTC+7), the specified semantics (naive read as UTC+7) says the
window has started, but the code attaches tzinfo=utc to the naive value and
rejects: the claim that naive timestamps are interpreted as UTC+7 is false of
_is_time_valid_safe. -/
theorem C5_counterexample :
    is_time_valid_safe (Option.some ⟨25200, Option.none⟩) Option.none 1800 = false ∧
    spec_time_valid (Option.some ⟨25200, Option.none⟩) Option.none 1800 = true := by
  exact ⟨rfl, rfl⟩

/-- C5 amended: the absolute-window check interprets naive timestamps as UTC
(tzinfo=timezone.utc is attached via replace), not UTC+7; a missing bound is
open on that side; and the check passes exactly when start <= now and
now < end, comparing absolute UTC instants. -/
theorem C5_absolute_window (s e : Option PyDatetime) (nowUtc : Int) :
    is_time_valid_safe s e nowUtc = true ↔
      ((∀ d, s = Option.some d → to_aware_utc d ≤ nowUtc) ∧
       (∀ d, e = Option.some d → nowUtc < to_aware_utc d)) := by
  cases s <;> cases e <;> simp [is_time_valid_safe]

/-- Witness for C5 at concrete bounds. -/
theorem C5_absolute_window_witness :
    is_time_valid_safe (Option.some ⟨0, Option.none⟩) (Option.some ⟨100, Option.none⟩) 50 = true := by
  refine (C5_absolute_window (Option.some ⟨0, Option.none⟩)
    (Option.some ⟨100, Option.none⟩) 50).mpr ⟨?_, ?_⟩
  · intro d hd
    cases hd
    decide
  · intro d hd
    cases hd
    decide

/-! ### Callback consumer claims -/

/-- C3: for every callback whose status is not SUCCESS, with the redis client
present: when attempt + 1 < max_attempts the handler issues exactly one
save_failure_and_schedule_retry carrying the retry payload (whose attempt
field is attempt + 1) and delay retryInterval; when attempt + 1 >=
max_attempts it writes nothing; in both cases the trace ends with
clear_inprogress(cid, lead_id) and clear_phone_inprogress(cid, phone), and
nothing else is issued.  Both handler branches (active controller found or
not) behave the same. -/
theorem C3_failure_callback (cb : CallbackData) (found : Bool)
    (hs : cb.status ≠ "SUCCESS") :
    handle_call_callback cb found true =
      (if cb.attempt + 1 < cb.maxAttempts then
        [ROp.saveFailureAndScheduleRetry cb.campaignId cb.callId
          (retry_payload_of cb) cb.retryInterval]
       else []) ++
      [ROp.clearInprogress cb.campaignId cb.leadId,
       ROp.clearPhoneInprogress cb.campaignId cb.leadPhoneNumber] ∧
    (retry_payload_of cb).attempt = cb.attempt + 1 := by
  have hb : (cb.status == "SUCCESS") = false := by
    simpa using hs
  refine ⟨?_, rfl⟩
  cases found <;> simp [handle_call_callback, hb]

/-- Witness for C3: a FAILED callback with attempts remaining schedules the
bumped retry then clears the in-progress flags. -/
theorem C3_failure_callback_witness :
    handle_call_callback ⟨"X", "FAILED", "C", "L", "P", 0, 3, 300⟩ true true =
      [ROp.saveFailureAndScheduleRetry "C" "X"
        ⟨"C", "L", "P", 1, 3, 300, "X", "FAILED"⟩ 300,
       ROp.clearInprogress "C" "L",
       ROp.clearPhoneInprogress "C" "P"] := by
  have h := (C3_failure_callback ⟨"X", "FAILED", "C", "L", "P", 0, 3, 300⟩ true
    (by decide)).1
  simpa using h

/-- C9: for every SUCCESS callback, with the redis client present, the trace
of store operations is exactly mark_lead_success, mark_phone_success, then
save_success_and_finalize, remove_retry, then the in-progress clears — so
both mark operations precede the finalize-and-remove pair.  Both handler
branches behave the same. -/
theorem C9_success_marks_before_finalize (cb : CallbackData) (found : Bool)
    (hs : cb.status = "SUCCESS") :
    handle_call_callback cb found true =
      [ROp.markLeadSuccess cb.campaignId cb.leadId,
       ROp.markPhoneSuccess cb.campaignId cb.leadPhoneNumber,
       ROp.saveSuccessAndFinalize cb.callId,
       ROp.removeRetry cb.campaignId cb.callId,
       ROp.clearInprogress cb.campaignId cb.leadId,
       ROp.clearPhoneInprogress cb.campaignId cb.leadPhoneNumber] := by
  cases found <;> simp [handle_call_callback, hs]

/-- Witness for C9 at a concrete SUCCESS callback. -/
theorem C9_success_marks_before_finalize_witness :
    handle_call_callback ⟨"X", "SUCCESS", "C", "L", "P", 0, 3, 300⟩ false true =
      [ROp.markLeadSuccess "C" "L",
       ROp.markPhoneSuccess "C" "P",
       ROp.saveSuccessAndFinalize "X",
       ROp.removeRetry "C" "X",
       ROp.clearInprogress "C" "L",
       ROp.clearPhoneInprogress "C" "P"] :=
  C9_success_marks_before_finalize ⟨"X", "SUCCESS", "C", "L", "P", 0, 3, 300⟩ false rfl

/-! ### Worker loop claims -/

/-- C8 counterexample: a running worker whose campaign allows 09:00-10:00,
observed at 08:59, does not exit its loop: the iteration sleeps 30 seconds
and loops again, with the worker still running and not finished — contrary
to the claim that the worker exits so the scheduler can respawn it. -/
theorem C8_counterexample :
    let res := start_loop_iter
      ⟨"C1", "T1", "Camp", "running", Option.none, Option.none, Option.none,
       Option.none, Option.none,
       TodField.entries
         [TodItem.item (Option.some 9) (Option.some 0) (Option.some 10) (Option.some 0)],
       Option.none⟩
      [] "X" 0 8 59
      ⟨true, false, false, [], 0, Option.none, true, []⟩
      RedisState.empty
    res.1 = LoopEvent.sleptOutOfWindow 30 ∧
    res.2.1.finished = false ∧ res.2.1.is_running = true := by
  exact ⟨rfl, rfl, rfl⟩

/-- C8 amended: whenever a running, non-stopped worker finds the current time
outside every configured time-of-day window, the loop iteration sleeps 30
seconds and re-checks on the next pass, leaving the worker state and the
store untouched; the worker does not exit (the loop only finishes via the
stop flags). -/
theorem C8_out_of_window_sleeps (c : Campaign) (pending : List Lead) (newCallId : String)
    (nowT nowHour nowMinute : Int) (w : WorkerState) (r : RedisState)
    (hrun : w.is_running = true) (hstop : w.is_stopped = false)
    (hwin : is_within_time_of_day c.time_of_day nowHour nowMinute = false) :
    start_loop_iter c pending newCallId nowT nowHour nowMinute w r =
      (LoopEvent.sleptOutOfWindow 30, w, r) := by
  unfold start_loop_iter
  simp [hrun, hstop, hwin]

/-- Witness for C8 at the concrete out-of-window input. -/
theorem C8_out_of_window_sleeps_witness :
    start_loop_iter
      ⟨"C2", "T1", "Camp", "running", Option.none, Option.none, Option.none,
       Option.none, Option.none,
       TodField.entries
         [TodItem.item (Option.some 9) (Option.some 0) (Option.some 10) (Option.some 0)],
       Option.none⟩
      [] "Y" 0 11 0
      ⟨true, false, false, [], 0, Option.none, true, []⟩
      RedisState.empty =
      (LoopEvent.sleptOutOfWindow 30,
       ⟨true, false, false, [], 0, Option.none, true, []⟩,
       RedisState.empty) :=
  C8_out_of_window_sleeps _ [] "Y" 0 11 0 _ RedisState.empty rfl rfl (by decide)

theorem create_call_local_mono (c : Campaign) (lead : Lead) (call_id : String)
    (nowT : Int) (w : WorkerState) (r : RedisState) :
    ∀ x ∈ w.inprogress_local,
      x ∈ (create_call c lead call_id nowT w r).1.inprogress_local := by
  intro x hx
  unfold create_call
  dsimp only
  split
  · exact hx
  · exact List.mem_cons_of_mem _ hx

theorem create_call_local_self (c : Campaign) (lead : Lead) (call_id : String)
    (nowT : Int) (w : WorkerState) (r : RedisState) :
    lead.id ∈ (create_call c lead call_id nowT w r).1.inprogress_local := by
  unfold create_call
  dsimp only
  split
  · next h => exact h
  · exact List.mem_cons_self _ _

theorem lead_scan_local_mono (c : Campaign) (pending : List Lead) (newCallId : String)
    (nowT nowHour nowMinute : Int) (w : WorkerState) (A : Option RedisState)
    (made : Bool) (w1 : WorkerState) (r1 : RedisState)
    (h : lead_scan c pending newCallId nowT nowHour nowMinute w A =
      Option.some (made, w1, r1)) :
    ∀ x ∈ w.inprogress_local, x ∈ w1.inprogress_local := by
  intro x hx
  cases A with
  | none => exact absurd h (by simp [lead_scan])
  | some rA =>
    simp only [lead_scan] at h
    split at h
    · simp only [Option.some.injEq, Prod.mk.injEq] at h
      rw [← h.2.1]
      exact create_call_local_mono _ _ _ _ _ _ x hx
    · simp only [Option.some.injEq, Prod.mk.injEq] at h
      rw [← h.2.1]
      exact hx

theorem process_once_local_mono (c : Campaign) (pending : List Lead) (newCallId : String)
    (nowT nowHour nowMinute : Int) (w : WorkerState) (r : RedisState)
    (made : Bool) (w1 : WorkerState) (r1 : RedisState)
    (h : process_campaign_once c pending newCallId nowT nowHour nowMinute w r =
      Option.some (made, w1, r1)) :
    ∀ x ∈ w.inprogress_local, x ∈ w1.inprogress_local := by
  unfold process_campaign_once at h
  exact lead_scan_local_mono _ _ _ _ _ _ _ _ _ _ _ h

theorem loop_iter_local_mono (c : Campaign) (pending : List Lead) (newCallId : String)
    (nowT nowHour nowMinute : Int) (w : WorkerState) (r : RedisState) :
    ∀ x ∈ w.inprogress_local,
      x ∈ (start_loop_iter c pending newCallId nowT nowHour nowMinute w r).2.1.inprogress_local := by
  intro x hx
  unfold start_loop_iter
  split
  · exact hx
  · split
    · exact hx
    · dsimp only
      split
      · exact hx
      · split
        · exact hx
        · next heq =>
          exact process_once_local_mono _ _ _ _ _ _ _ _ _ _ _ heq x hx
        · next heq =>
          exact process_once_local_mono _ _ _ _ _ _ _ _ _ _ _ heq x hx

/-- C10: the worker's local in-progress fallback set only grows — no step of
the worker loop ever removes a member; _create_call inserts the dispatched
lead's id into it; and _should_make_call rejects any lead whose id is in it,
whatever the coordination-store state (so a lead dispatched once by a worker
instance is never dispatched as a new lead again by that instance, even after
callbacks clear the store's in-progress flags). -/
theorem C10_local_inprogress_guard (c : Campaign) (pending : List Lead)
    (newCallId : String) (nowT nowHour nowMinute : Int) (w : WorkerState)
    (r : RedisState) (lead : Lead) (call_id : String) :
    (∀ x ∈ w.inprogress_local,
      x ∈ (start_loop_iter c pending newCallId nowT nowHour nowMinute w r).2.1.inprogress_local) ∧
    lead.id ∈ (create_call c lead call_id nowT w r).1.inprogress_local ∧
    (lead.id ∈ w.inprogress_local →
      should_make_call c w r lead nowT nowHour nowMinute = false) := by
  refine ⟨loop_iter_local_mono c pending newCallId nowT nowHour nowMinute w r,
    create_call_local_self c lead call_id nowT w r, ?_⟩
  intro hmem
  unfold should_make_call
  dsimp only
  split
  · rfl
  · simp [hmem]

/-- Witness for C10: with lead L1 already in the local fallback set, a loop
iteration keeps it there and _should_make_call rejects it even though the
coordination store is empty (no in-progress flag anywhere). -/
theorem C10_local_inprogress_guard_witness :
    "L1" ∈ (start_loop_iter
      ⟨"C1", "T1", "Camp", "running", Option.none, Option.none, Option.none,
       Option.none, Option.none, TodField.empty, Option.none⟩
      [] "X" 0 9 0
      ⟨true, false, false, [], 1, Option.none, true, ["L1"]⟩
      RedisState.empty).2.1.inprogress_local ∧
    should_make_call
      ⟨"C1", "T1", "Camp", "running", Option.none, Option.none, Option.none,
       Option.none, Option.none, TodField.empty, Option.none⟩
      ⟨true, false, false, [], 1, Option.none, true, ["L1"]⟩
      RedisState.empty ⟨"L1", "0901", Option.none⟩ 0 9 0 = false := by
  refine ⟨(C10_local_inprogress_guard _ [] "X" 0 9 0 _ RedisState.empty
    ⟨"L1", "0901", Option.none⟩ "X").1 "L1" (by decide), ?_⟩
  exact (C10_local_inprogress_guard
    ⟨"C1", "T1", "Camp", "running", Option.none, Option.none, Option.none,
     Option.none, Option.none, TodField.empty, Option.none⟩
    [] "X" 0 9 0
    ⟨true, false, false, [], 1, Option.none, true, ["L1"]⟩
    RedisState.empty ⟨"L1", "0901", Option.none⟩ "X").2.2 (by decide)

/-- C1 (demonstration of the code bug at a concrete accepted lead): for lead
L1 of campaign C1 with a redis client attached, _create_call performs all the
claimed bookkeeping — last_lead_call_time[lead] = now, processed count
incremented, lead and phone marked in-progress in the store and in the local
fallback set, and the message is built with the fresh call_id and no retry
marker — but the built message is dropped: nothing is ever pushed onto the
call_requests queue (send_call_request has no caller; create_call_session is
a logging stub), so the claimed emission does not happen. -/
theorem C1_create_call_builds_but_never_sends :
    ∃ res, res = create_call
      ⟨"C1", "T1", "Camp", "running", Option.none, Option.none, Option.some "S1",
       Option.none, Option.none, TodField.empty, Option.none⟩
      ⟨"L1", "0901", Option.none⟩ "X" 100
      ⟨true, false, false, [], 0, Option.none, true, []⟩
      RedisState.empty ∧
    res.1.last_call_time.lookup "L1" = Option.some 100 ∧
    res.1.processed_leads = 1 ∧
    ("C1", "L1") ∈ res.2.1.inprog ∧
    ("C1", "0901") ∈ res.2.1.inprogPhone ∧
    "L1" ∈ res.1.inprogress_local ∧
    res.2.2.callId = "X" ∧ res.2.2.isRetry = Option.none ∧
    res.2.1.requests = [] := by
  exact ⟨_, rfl, rfl, rfl, by decide, by decide, by decide, rfl, rfl, rfl⟩

/-! ### Claim-due-retries (the atomic pop-due script) -/

theorem zfold_min_mem (es : List ZEntry) (e : ZEntry) :
    (es.foldl (fun best x => if zLt x best then x else best) e) ∈ e :: es := by
  induction es generalizing e with
  | nil => simp
  | cons x xs ih =>
    simp only [List.foldl_cons]
    have h := ih (if zLt x e then x else e)
    rcases List.mem_cons.mp h with h1 | h1
    · rw [h1]
      by_cases hc : zLt x e
      · simp [hc]
      · simp [hc]
    · exact List.mem_cons_of_mem _ (List.mem_cons_of_mem _ h1)

theorem zRangeByScoreHead_spec (z : ZSet) (now : Int) (id : String)
    (h : zRangeByScoreHead z now = Option.some id) :
    ∃ s, (id, s) ∈ z ∧ s ≤ now := by
  unfold zRangeByScoreHead at h
  split at h
  · exact absurd h (by simp)
  · next e es heq =>
    rw [Option.some.injEq] at h
    have hf := zfold_min_mem es e
    rw [← heq] at hf
    have hz := List.mem_filter.mp hf
    refine ⟨(es.foldl (fun best x => if zLt x best then x else best) e).2, ?_, ?_⟩
    · rw [← h, Prod.mk.eta]
      exact hz.1
    · simpa using hz.2

theorem mem_zrem (z : ZSet) (m : String) (e : ZEntry) :
    e ∈ zrem z m ↔ e ∈ z ∧ e.1 ≠ m := by
  unfold zrem
  rw [List.mem_filter]
  simp

theorem claim_go_spec (now : Int) :
    ∀ (limit : Nat) (z : ZSet),
      (claim_due_retries_go now limit z).1.length ≤ limit ∧
      (∀ id ∈ (claim_due_retries_go now limit z).1, ∃ s, (id, s) ∈ z ∧ s ≤ now) ∧
      (∀ e, e ∈ (claim_due_retries_go now limit z).2 ↔
        e ∈ z ∧ e.1 ∉ (claim_due_retries_go now limit z).1) ∧
      (claim_due_retries_go now limit z).1.Nodup := by
  intro limit
  induction limit with
  | zero => intro z; simp [claim_due_retries_go]
  | succ n ih =>
    intro z
    unfold claim_due_retries_go
    split
    · simp
    · next id heq =>
      obtain ⟨hlen, hmem, hiff, hnd⟩ := ih (zrem z id)
      dsimp only
      refine ⟨?_, ?_, ?_, ?_⟩
      · simpa using Nat.succ_le_succ hlen
      · intro id' hid'
        rcases List.mem_cons.mp hid' with rfl | hid'
        · exact zRangeByScoreHead_spec z now id' heq
        · obtain ⟨s, hs, hsn⟩ := hmem id' hid'
          exact ⟨s, ((mem_zrem _ _ _).mp hs).1, hsn⟩
      · intro e
        rw [hiff e, mem_zrem]
        constructor
        · rintro ⟨⟨hez, hne⟩, hnr⟩
          exact ⟨hez, by simp [hne, hnr]⟩
        · rintro ⟨hez, hncons⟩
          simp only [List.mem_cons, not_or] at hncons
          exact ⟨⟨hez, hncons.1⟩, hncons.2⟩
      · refine List.nodup_cons.mpr ⟨?_, hnd⟩
        intro hidin
        obtain ⟨s, hs, _⟩ := hmem id hidin
        exact ((mem_zrem _ _ _).mp hs).2 rfl

theorem zsetOf_setZset (r : RedisState) (cid : String) (z : ZSet) :
    zsetOf (setZset r cid z) cid = z := by
  unfold zsetOf setZset
  simp [List.lookup]

/-- C2: claim_due_retries returns at most limit call ids; every returned id
was in the retry index with a score at most the now of the single atomic
script evaluation; the post-state index holds exactly the entries whose
member was not returned (the returned ids are removed, nothing else); the
returned list has no duplicates; and a subsequent claim against the
post-state never returns an id the first claim returned — so no call_id goes
to more than one caller. -/
theorem C2_claim_due_retries_spec (cid : String) (limit : Nat) (nowT : Int)
    (r : RedisState) :
    (claim_due_retries cid limit nowT r).1.length ≤ limit ∧
    (∀ id ∈ (claim_due_retries cid limit nowT r).1,
      ∃ s, (id, s) ∈ zsetOf r cid ∧ s ≤ nowT) ∧
    (∀ e, e ∈ zsetOf (claim_due_retries cid limit nowT r).2 cid ↔
      e ∈ zsetOf r cid ∧ e.1 ∉ (claim_due_retries cid limit nowT r).1) ∧
    (claim_due_retries cid limit nowT r).1.Nodup ∧
    (∀ (limit2 : Nat) (now2 : Int) id,
      id ∈ (claim_due_retries cid limit2 now2 (claim_due_retries cid limit nowT r).2).1 →
      id ∉ (claim_due_retries cid limit nowT r).1) := by
  obtain ⟨hlen, hmem, hiff, hnd⟩ := claim_go_spec nowT limit (zsetOf r cid)
  unfold claim_due_retries
  dsimp only
  rw [zsetOf_setZset]
  refine ⟨hlen, hmem, hiff, hnd, ?_⟩
  intro limit2 now2 id hid2
  obtain ⟨_, hmem2, _, _⟩ :=
    claim_go_spec now2 limit2 (claim_due_retries_go nowT limit (zsetOf r cid)).2
  have hid2' : id ∈ (claim_due_retries_go now2 limit2
      (claim_due_retries_go nowT limit (zsetOf r cid)).2).1 := by
    simpa [claim_due_retries, zsetOf_setZset] using hid2
  obtain ⟨s, hs, _⟩ := hmem2 id hid2'
  exact ((hiff (id, s)).mp hs).2

/-- Witness for C2 at a concrete index: two entries, one due. -/
theorem C2_claim_due_retries_spec_witness :
    ("A" ∈ (claim_due_retries "c" 10 10
      ⟨[], [], [], [], [("c", [("A", 5), ("B", 50)])], [], []⟩).1) ∧
    (∃ s, ("A", s) ∈ zsetOf ⟨[], [], [], [], [("c", [("A", 5), ("B", 50)])], [], []⟩ "c" ∧
      s ≤ 10) := by
  refine ⟨by decide, ?_⟩
  exact (C2_claim_due_retries_spec "c" 10 10
    ⟨[], [], [], [], [("c", [("A", 5), ("B", 50)])], [], []⟩).2.1 "A" (by decide)

/-! ### One dispatch attempt (C7) -/

theorem handle_due_retry_requests (c : Campaign) (id : String) (nowT : Int)
    (r r' : RedisState) (h : handle_due_retry c id nowT r = Option.some r') :
    r'.requests = r.requests := by
  unfold handle_due_retry at h
  dsimp only at h
  split at h
  · exact absurd h (by simp)
  · split at h
    · split at h
      · rw [Option.some.injEq] at h
        subst h
        rfl
      · split at h
        · rw [Option.some.injEq] at h
          subst h
          rfl
        · rw [Option.some.injEq] at h
          subst h
          rfl
    all_goals exact absurd h (by simp)

theorem process_retries_requests (c : Campaign) (nowT : Int) :
    ∀ (ids : List String) (r r' : RedisState),
      process_retries c ids nowT r = Option.some r' → r'.requests = r.requests := by
  intro ids
  induction ids with
  | nil =>
    intro r r' h
    rw [show process_retries c [] nowT r = Option.some r from rfl, Option.some.injEq] at h
    rw [← h]
  | cons id ids ih =>
    intro r r' h
    unfold process_retries at h
    split at h
    · next r1 heq =>
      rw [ih r1 r' h, handle_due_retry_requests c id nowT r r1 heq]
    · exact absurd h (by simp)

theorem retry_phase_requests (c : Campaign) (nowT : Int) (w : WorkerState)
    (r rA : RedisState) (h : retry_phase c nowT w r = Option.some rA) :
    rA.requests = r.requests := by
  unfold retry_phase at h
  split at h
  · dsimp only at h
    have h2 := process_retries_requests c nowT _ _ _ h
    rw [h2]
    rfl
  · rw [Option.some.injEq] at h
    rw [← h]

theorem create_call_requests (c : Campaign) (lead : Lead) (call_id : String)
    (nowT : Int) (w : WorkerState) (r : RedisState) :
    (create_call c lead call_id nowT w r).2.1.requests = r.requests := by
  unfold create_call
  dsimp only
  split <;> rfl

theorem create_call_processed (c : Campaign) (lead : Lead) (call_id : String)
    (nowT : Int) (w : WorkerState) (r : RedisState) :
    (create_call c lead call_id nowT w r).1.processed_leads = w.processed_leads + 1 := rfl

/-- C7 counterexample: with one due retry (R1, due at 0, attempt 0 of 3,
retry interval 5) and one eligible pending lead, a single invocation of
_process_campaign_once at now = 100 claims and handles the retry
(rescheduling it to 105) AND creates the new-lead call in the same iteration
(returns made = true, processed count 1) — so new leads are attempted even
though a due retry was dispatched, contradicting the claimed guard.  The
invocation also emits nothing onto call_requests at all. -/
theorem C7_counterexample :
    let r0 : RedisState := ⟨[], [], [], [],
      [("C1", [("R1", 0)])],
      [("R1", [("lead_id".toList, "L9".toList), ("phone".toList, "099".toList),
               ("attempt".toList, "0".toList), ("max_attempts".toList, "3".toList),
               ("retry_interval_s".toList, "5".toList)])], []⟩
    let c : Campaign := ⟨"C1", "T1", "Camp", "running", Option.none, Option.none,
      Option.none, Option.none, Option.none, TodField.empty, Option.none⟩
    let res := process_campaign_once c [⟨"L1", "077", Option.none⟩] "X" 100 9 30
      ⟨true, false, false, [], 0, Option.none, true, []⟩ r0
    (claim_due_retries "C1" 10 100 r0).1 = ["R1"] ∧
    res.map (fun p => zsetOf p.2.2 "C1") = Option.some [("R1", 105)] ∧
    res.map (fun p => p.1) = Option.some true ∧
    res.map (fun p => p.2.1.processed_leads) = Option.some 1 ∧
    res.map (fun p => p.2.2.requests) = Option.some [] := by
  exact ⟨rfl, rfl, rfl, rfl, rfl⟩

/-- C7 amended: one invocation of _process_campaign_once never pushes
anything onto the call_requests queue; it creates at most one new-lead call
(the processed count grows by one exactly when it reports a dispatch, else
stays); the due retries are handled first, inline; and the new-lead scan runs
unconditionally on the post-retry store — whether a call is created depends
only on that scan, not on whether retries were handled. -/
theorem C7_at_most_one_new_call (c : Campaign) (pending : List Lead) (newCallId : String)
    (nowT nowHour nowMinute : Int) (w : WorkerState) (r : RedisState)
    (made : Bool) (w1 : WorkerState) (r1 : RedisState)
    (h : process_campaign_once c pending newCallId nowT nowHour nowMinute w r =
      Option.some (made, w1, r1)) :
    r1.requests = r.requests ∧
    w1.processed_leads = w.processed_leads + (if made then 1 else 0) ∧
    (∃ rA, retry_phase c nowT w r = Option.some rA ∧
      (made = true ↔ (pending.find?
        (fun lead => should_make_call c w rA lead nowT nowHour nowMinute)).isSome)) := by
  unfold process_campaign_once at h
  rcases hA : retry_phase c nowT w r with _ | rA
  · rw [hA] at h
    exact absurd h (by simp [lead_scan])
  · rw [hA] at h
    simp only [lead_scan] at h
    split at h
    · next lead hfind =>
      simp only [Option.some.injEq, Prod.mk.injEq] at h
      obtain ⟨hmade, hw1, hr1⟩ := h
      subst hmade
      refine ⟨?_, ?_, rA, rfl, ?_⟩
      · rw [← hr1, create_call_requests]
        exact retry_phase_requests c nowT w r rA hA
      · rw [← hw1, create_call_processed]
        simp
      · simp [hfind]
    · simp only [Option.some.injEq, Prod.mk.injEq] at h
      obtain ⟨hmade, hw1, hr1⟩ := h
      subst hmade
      refine ⟨?_, ?_, rA, rfl, ?_⟩
      · rw [← hr1]
        exact retry_phase_requests c nowT w r rA hA
      · rw [← hw1]
        simp
      · next hfind => simp [hfind]

/-- Witness for C7 at a concrete invocation (no retries attached, no pending
leads: the pass reports nothing to do). -/
theorem C7_at_most_one_new_call_witness :
    (process_campaign_once
      ⟨"C1", "T1", "Camp", "running", Option.none, Option.none, Option.none,
       Option.none, Option.none, TodField.empty, Option.none⟩
      [] "X" 0 9 0
      ⟨true, false, false, [], 0, Option.none, false, []⟩
      RedisState.empty =
      Option.some (false, ⟨true, false, false, [], 0, Option.none, false, []⟩,
        RedisState.empty)) ∧
    (RedisState.empty.requests = RedisState.empty.requests ∧
     (⟨true, false, false, [], 0, Option.none, false, []⟩ : WorkerState).processed_leads =
       (⟨true, false, false, [], 0, Option.none, false, []⟩ : WorkerState).processed_leads +
         (if false then 1 else 0) ∧
     (∃ rA, retry_phase
        ⟨"C1", "T1", "Camp", "running", Option.none, Option.none, Option.none,
         Option.none, Option.none, TodField.empty, Option.none⟩
        0 ⟨true, false, false, [], 0, Option.none, false, []⟩ RedisState.empty =
          Option.some rA ∧
       (false = true ↔ (([] : List Lead).find? (fun lead => should_make_call
         ⟨"C1", "T1", "Camp", "running", Option.none, Option.none, Option.none,
          Option.none, Option.none, TodField.empty, Option.none⟩
         ⟨true, false, false, [], 0, Option.none, false, []⟩ rA lead 0 9 0)).isSome))) :=
  ⟨rfl, C7_at_most_one_new_call _ [] "X" 0 9 0 _ RedisState.empty false _ _ rfl⟩

/-! ### JSON round-trip: hex digits and string bodies -/

theorem hexVal_hexDigitChar (n : Nat) (h : n < 16) :
    hexVal (hexDigitChar n) = Option.some n := by
  interval_cases n <;> decide

theorem hexQuad_toHex4 (n : Nat) (h : n < 65536) :
    hexQuad (hexDigitChar (n / 4096 % 16)) (hexDigitChar (n / 256 % 16))
      (hexDigitChar (n / 16 % 16)) (hexDigitChar (n % 16)) = Option.some n := by
  unfold hexQuad
  rw [hexVal_hexDigitChar _ (Nat.mod_lt _ (by omega)),
      hexVal_hexDigitChar _ (Nat.mod_lt _ (by omega)),
      hexVal_hexDigitChar _ (Nat.mod_lt _ (by omega)),
      hexVal_hexDigitChar _ (Nat.mod_lt _ (by omega))]
  dsimp only
  congr 1
  omega

theorem char_eq_ofNat {c : Char} {m : Nat} (h : c.toNat = m) : c = Char.ofNat m := by
  rw [← h, Char.ofNat_toNat]

theorem char_valid_cases (c : Char) :
    c.toNat < 55296 ∨ (57343 < c.toNat ∧ c.toNat < 1114112) := c.valid

theorem parseStrBody_quote (fuel : Nat) (rest : List Char) :
    parseStrBody (Nat.succ fuel) ('"' :: rest) = Option.some ([], rest) := by
  rw [parseStrBody.eq_def]
  dsimp only
  rw [if_pos rfl]

theorem parseStrBody_named_escape (fuel : Nat) (x out : Char) (rest : List Char)
    (hu : ¬ x = 'u') (hdec : escDecode x = Option.some out) :
    parseStrBody (Nat.succ fuel) ('\\' :: x :: rest) =
      consRes out (parseStrBody fuel rest) := by
  rw [parseStrBody.eq_def]
  dsimp only
  rw [if_neg (by decide : ¬ ('\\' : Char) = '"'), if_pos rfl]
  rw [if_neg hu, hdec]

theorem parseStrBody_lit (fuel : Nat) (c : Char) (rest : List Char)
    (h1 : ¬ c = '"') (h2 : ¬ c = '\\') (h3 : ¬ c.toNat < 32) :
    parseStrBody (Nat.succ fuel) (c :: rest) = consRes c (parseStrBody fuel rest) := by
  rw [parseStrBody.eq_def]
  dsimp only
  rw [if_neg h1, if_neg h2, if_neg h3]

theorem parseUEsc_single (code : Nat) (rest : List Char)
    (hlt : code < 65536) (hns : code < 55296 ∨ 57344 ≤ code) :
    parseUEsc (toHex4 code ++ rest) = Option.some (Char.ofNat code, rest) := by
  rw [show toHex4 code ++ rest =
    hexDigitChar (code / 4096 % 16) :: hexDigitChar (code / 256 % 16) ::
    hexDigitChar (code / 16 % 16) :: hexDigitChar (code % 16) :: rest from rfl]
  rw [parseUEsc.eq_def]
  dsimp only
  rw [hexQuad_toHex4 code hlt]
  dsimp only
  rw [if_pos hns]

theorem parseUEsc_pair (hi lo : Nat) (rest : List Char)
    (hhi : 55296 ≤ hi ∧ hi < 56320) (hlo : 56320 ≤ lo ∧ lo < 57344) :
    parseUEsc (toHex4 hi ++ ('\\' :: 'u' :: (toHex4 lo ++ rest))) =
      Option.some (Char.ofNat (65536 + (hi - 55296) * 1024 + (lo - 56320)), rest) := by
  rw [show toHex4 hi ++ ('\\' :: 'u' :: (toHex4 lo ++ rest)) =
    hexDigitChar (hi / 4096 % 16) :: hexDigitChar (hi / 256 % 16) ::
    hexDigitChar (hi / 16 % 16) :: hexDigitChar (hi % 16) ::
    '\\' :: 'u' :: hexDigitChar (lo / 4096 % 16) :: hexDigitChar (lo / 256 % 16) ::
    hexDigitChar (lo / 16 % 16) :: hexDigitChar (lo % 16) :: rest from rfl]
  rw [parseUEsc.eq_def]
  dsimp only
  rw [hexQuad_toHex4 hi (by omega)]
  dsimp only
  rw [if_neg (by omega : ¬ (hi < 55296 ∨ 57344 ≤ hi)), if_pos (by omega : hi < 56320)]
  rw [if_pos ⟨rfl, rfl⟩, hexQuad_toHex4 lo (by omega)]
  dsimp only
  rw [if_pos hlo]

theorem parseStrBody_u (fuel : Nat) (rest : List Char) (out : Char) (rem : List Char)
    (h : parseUEsc rest = Option.some (out, rem)) :
    parseStrBody (Nat.succ fuel) ('\\' :: 'u' :: rest) =
      consRes out (parseStrBody fuel rem) := by
  rw [parseStrBody.eq_def]
  dsimp only
  rw [if_neg (by decide : ¬ ('\\' : Char) = '"'), if_pos rfl]
  rw [if_pos rfl, h]

theorem parseStrBody_escapeChar (fuel : Nat) (c : Char) (rest : List Char) :
    parseStrBody (Nat.succ fuel) (escapeChar c ++ rest) =
      consRes c (parseStrBody fuel rest) := by
  unfold escapeChar
  by_cases h1 : c = '"'
  · rw [if_pos h1, show (['\\', '"'] : List Char) ++ rest = '\\' :: '"' :: rest from rfl,
      parseStrBody_named_escape fuel '"' '"' rest (by decide) (by decide), h1]
  rw [if_neg h1]
  by_cases h2 : c = '\\'
  · rw [if_pos h2, show (['\\', '\\'] : List Char) ++ rest = '\\' :: '\\' :: rest from rfl,
      parseStrBody_named_escape fuel '\\' '\\' rest (by decide) (by decide), h2]
  rw [if_neg h2]
  by_cases h3 : c.toNat = 8
  · rw [if_pos h3, show (['\\', 'b'] : List Char) ++ rest = '\\' :: 'b' :: rest from rfl,
      parseStrBody_named_escape fuel 'b' (Char.ofNat 8) rest (by decide) (by decide),
      ← char_eq_ofNat h3]
  rw [if_neg h3]
  by_cases h4 : c.toNat = 9
  · rw [if_pos h4, show (['\\', 't'] : List Char) ++ rest = '\\' :: 't' :: rest from rfl,
      parseStrBody_named_escape fuel 't' (Char.ofNat 9) rest (by decide) (by decide),
      ← char_eq_ofNat h4]
  rw [if_neg h4]
  by_cases h5 : c.toNat = 10
  · rw [if_pos h5, show (['\\', 'n'] : List Char) ++ rest = '\\' :: 'n' :: rest from rfl,
      parseStrBody_named_escape fuel 'n' (Char.ofNat 10) rest (by decide) (by decide),
      ← char_eq_ofNat h5]
  rw [if_neg h5]
  by_cases h6 : c.toNat = 12
  · rw [if_pos h6, show (['\\', 'f'] : List Char) ++ rest = '\\' :: 'f' :: rest from rfl,
      parseStrBody_named_escape fuel 'f' (Char.ofNat 12) rest (by decide) (by decide),
      ← char_eq_ofNat h6]
  rw [if_neg h6]
  by_cases h7 : c.toNat = 13
  · rw [if_pos h7, show (['\\', 'r'] : List Char) ++ rest = '\\' :: 'r' :: rest from rfl,
      parseStrBody_named_escape fuel 'r' (Char.ofNat 13) rest (by decide) (by decide),
      ← char_eq_ofNat h7]
  rw [if_neg h7]
  by_cases h8 : 32 ≤ c.toNat ∧ c.toNat ≤ 126
  · rw [if_pos h8, show ([c] : List Char) ++ rest = c :: rest from rfl,
      parseStrBody_lit fuel c rest h1 h2 (by omega)]
  rw [if_neg h8]
  by_cases h9 : c.toNat < 65536
  · have hval := char_valid_cases c
    have hns : c.toNat < 55296 ∨ 57344 ≤ c.toNat := by omega
    rw [if_pos h9,
      show ('\\' :: 'u' :: toHex4 c.toNat) ++ rest =
        '\\' :: 'u' :: (toHex4 c.toNat ++ rest) from rfl,
      parseStrBody_u fuel _ _ _ (parseUEsc_single c.toNat rest h9 hns),
      Char.ofNat_toNat]
  · have hval := char_valid_cases c
    have hge : 65536 ≤ c.toNat := by omega
    have hub : c.toNat < 1114112 := by omega
    have hq : (c.toNat - 65536) / 1024 < 1024 := by omega
    have hrem := Nat.mod_lt (c.toNat - 65536) (show 0 < 1024 by omega)
    rw [if_neg h9,
      show (('\\' :: 'u' :: toHex4 (55296 + (c.toNat - 65536) / 1024)) ++
          ('\\' :: 'u' :: toHex4 (56320 + (c.toNat - 65536) % 1024))) ++ rest =
        '\\' :: 'u' :: (toHex4 (55296 + (c.toNat - 65536) / 1024) ++
          ('\\' :: 'u' :: (toHex4 (56320 + (c.toNat - 65536) % 1024) ++ rest))) by
        simp [List.append_assoc],
      parseStrBody_u fuel _ _ _
        (parseUEsc_pair _ _ rest (by omega) (by omega))]
    have harith : 65536 + (55296 + (c.toNat - 65536) / 1024 - 55296) * 1024 +
        (56320 + (c.toNat - 65536) % 1024 - 56320) = c.toNat := by
      have := Nat.div_add_mod (c.toNat - 65536) 1024
      omega
    rw [harith, Char.ofNat_toNat]

theorem escapeChar_length_pos (c : Char) : 1 ≤ (escapeChar c).length := by
  unfold escapeChar
  repeat' split
  all_goals simp [toHex4]

theorem length_le_escapeStr (s : List Char) : s.length ≤ (escapeStr s).length := by
  induction s with
  | nil => simp [escapeStr]
  | cons c cs ih =>
    rw [show escapeStr (c :: cs) = escapeChar c ++ escapeStr cs from rfl]
    simp only [List.length_append, List.length_cons]
    have := escapeChar_length_pos c
    omega

theorem parseStrBody_escapeStr (s : List Char) :
    ∀ (fuel : Nat) (rest : List Char), s.length < fuel →
      parseStrBody fuel (escapeStr s ++ '"' :: rest) = Option.some (s, rest) := by
  induction s with
  | nil =>
    intro fuel rest hf
    cases fuel with
    | zero => omega
    | succ f =>
      rw [show escapeStr [] = [] from rfl, List.nil_append, parseStrBody_quote]
  | cons c cs ih =>
    intro fuel rest hf
    cases fuel with
    | zero => omega
    | succ f =>
      rw [show escapeStr (c :: cs) = escapeChar c ++ escapeStr cs from rfl,
        List.append_assoc, parseStrBody_escapeChar,
        ih f rest (by simpa using Nat.lt_of_succ_lt_succ hf)]
      rfl

/-! ### JSON round-trip: numbers -/

theorem natToCharsAux_acc (fuel : Nat) :
    ∀ (n : Nat) (acc : List Char),
      natToCharsAux fuel n acc = natToCharsAux fuel n [] ++ acc := by
  induction fuel with
  | zero => intro n acc; rfl
  | succ fuel ih =>
    intro n acc
    by_cases h : n < 10
    · simp [natToCharsAux, h]
    · rw [show natToCharsAux (Nat.succ fuel) n acc =
        natToCharsAux fuel (n / 10) (Nat.digitChar (n % 10) :: acc) by
          simp [natToCharsAux, h]]
      rw [show natToCharsAux (Nat.succ fuel) n [] =
        natToCharsAux fuel (n / 10) [Nat.digitChar (n % 10)] by
          simp [natToCharsAux, h]]
      rw [ih (n / 10) (Nat.digitChar (n % 10) :: acc),
        ih (n / 10) [Nat.digitChar (n % 10)]]
      simp

theorem natToCharsAux_extra (n : Nat) :
    ∀ (fuel₁ fuel₂ : Nat) (acc : List Char), n < fuel₁ → n < fuel₂ →
      natToCharsAux fuel₁ n acc = natToCharsAux fuel₂ n acc := by
  induction n using Nat.strong_induction_on with
  | _ n ih =>
    intro fuel₁ fuel₂ acc h1 h2
    cases fuel₁ with
    | zero => omega
    | succ f1 =>
      cases fuel₂ with
      | zero => omega
      | succ f2 =>
        by_cases h : n < 10
        · simp [natToCharsAux, h]
        · rw [show natToCharsAux (Nat.succ f1) n acc =
            natToCharsAux f1 (n / 10) (Nat.digitChar (n % 10) :: acc) by
              simp [natToCharsAux, h]]
          rw [show natToCharsAux (Nat.succ f2) n acc =
            natToCharsAux f2 (n / 10) (Nat.digitChar (n % 10) :: acc) by
              simp [natToCharsAux, h]]
          have hdiv : n / 10 < n := Nat.div_lt_self (by omega) (by omega)
          exact ih (n / 10) hdiv f1 f2 _ (by omega) (by omega)

theorem natToChars_eq (n : Nat) : natToChars n =
    if n < 10 then [Nat.digitChar n]
    else natToChars (n / 10) ++ [Nat.digitChar (n % 10)] := by
  unfold natToChars
  by_cases h : n < 10
  · simp [natToCharsAux, h]
  · rw [if_neg h]
    rw [show natToCharsAux (n + 1) n [] =
      natToCharsAux n (n / 10) [Nat.digitChar (n % 10)] by
        simp [natToCharsAux, h]]
    rw [natToCharsAux_acc n (n / 10) [Nat.digitChar (n % 10)]]
    have hdiv : n / 10 < n := Nat.div_lt_self (by omega) (by omega)
    rw [natToCharsAux_extra (n / 10) n (n / 10 + 1) [] (by omega) (by omega)]

theorem digitChar_isDigit (n : Nat) (h : n < 10) : (Nat.digitChar n).isDigit = true := by
  interval_cases n <;> decide

theorem digitChar_toNat (n : Nat) (h : n < 10) : (Nat.digitChar n).toNat = 48 + n := by
  interval_cases n <;> decide

theorem natToChars_ne_nil (n : Nat) : natToChars n ≠ [] := by
  rw [natToChars_eq]
  split
  · simp
  · simp

theorem natToChars_digits (n : Nat) : ∀ c ∈ natToChars n, c.isDigit = true := by
  induction n using Nat.strong_induction_on with
  | _ n ih =>
    intro c hc
    rw [natToChars_eq] at hc
    by_cases h : n < 10
    · rw [if_pos h] at hc
      simp at hc
      subst hc
      exact digitChar_isDigit n h
    · rw [if_neg h] at hc
      rw [List.mem_append] at hc
      rcases hc with hc | hc
      · exact ih (n / 10) (Nat.div_lt_self (by omega) (by omega)) c hc
      · simp at hc
        subst hc
        exact digitChar_isDigit _ (Nat.mod_lt _ (by omega))

theorem natToChars_head_zero (n : Nat) :
    (natToChars n).headD 'x' = '0' → n = 0 := by
  induction n using Nat.strong_induction_on with
  | _ n ih =>
    intro h
    rw [natToChars_eq] at h
    by_cases hlt : n < 10
    · rw [if_pos hlt] at h
      simp [List.headD] at h
      interval_cases n
      · rfl
      all_goals exact absurd h (by decide)
    · rw [if_neg hlt] at h
      obtain ⟨a, as, ha⟩ := List.exists_cons_of_ne_nil (natToChars_ne_nil (n / 10))
      rw [ha] at h
      simp at h
      have hz := ih (n / 10) (Nat.div_lt_self (by omega) (by omega)) (by rw [ha]; simpa using h)
      omega

theorem foldl_digits_append (ds : List Char) (d : Char) (a : Nat) :
    (ds ++ [d]).foldl (fun a c => a * 10 + (c.toNat - 48)) a =
      ((ds.foldl (fun a c => a * 10 + (c.toNat - 48)) a) * 10 + (d.toNat - 48)) := by
  induction ds generalizing a with
  | nil => rfl
  | cons x xs ih => simp only [List.cons_append, List.foldl_cons, ih]

theorem digitsVal_natToChars (n : Nat) : digitsVal (natToChars n) = n := by
  induction n using Nat.strong_induction_on with
  | _ n ih =>
    rw [natToChars_eq]
    by_cases h : n < 10
    · rw [if_pos h]
      unfold digitsVal
      simp [digitChar_toNat n h]
    · rw [if_neg h]
      unfold digitsVal
      rw [foldl_digits_append]
      have := ih (n / 10) (Nat.div_lt_self (by omega) (by omega))
      unfold digitsVal at this
      rw [this, digitChar_toNat _ (Nat.mod_lt _ (by omega))]
      omega

theorem scanDigits_of_not_digit (rest : List Char)
    (h : (rest.headD 'x').isDigit = false) : scanDigits rest = ([], rest) := by
  cases rest with
  | nil => rfl
  | cons c cs =>
    simp only [List.headD_cons] at h
    simp [scanDigits, h]

theorem scanDigits_append (ds rest : List Char)
    (hds : ∀ c ∈ ds, c.isDigit = true)
    (hrest : (rest.headD 'x').isDigit = false) :
    scanDigits (ds ++ rest) = (ds, rest) := by
  induction ds with
  | nil =>
    rw [List.nil_append]
    exact scanDigits_of_not_digit rest hrest
  | cons d dtl ih =>
    rw [List.cons_append]
    have hd : d.isDigit = true := hds d (List.mem_cons_self _ _)
    simp only [scanDigits, hd, if_true]
    rw [ih (fun c hc => hds c (List.mem_cons_of_mem _ hc))]

theorem goodFollow_head_not_digit (rest : List Char) (h : goodFollow rest) :
    (rest.headD 'x').isDigit = false := by
  cases rest with
  | nil => decide
  | cons c cs =>
    rcases h with h | h | h <;> subst h <;> rw [List.headD_cons] <;> decide

theorem goodFollow_head_not_dot (rest : List Char) (h : goodFollow rest) :
    scanFracPart rest = ([], rest) := by
  cases rest with
  | nil => rfl
  | cons c cs =>
    have hc : ¬ c = '.' := by rcases h with h | h | h <;> subst h <;> decide
    simp [scanFracPart, hc]

theorem goodFollow_head_not_exp (rest : List Char) (h : goodFollow rest) :
    scanExpPart rest = ([], rest) := by
  cases rest with
  | nil => rfl
  | cons c cs =>
    have hc : ¬ (c = 'e' ∨ c = 'E') := by rcases h with h | h | h <;> subst h <;> decide
    simp [scanExpPart, hc]

theorem natToChars_no_leading_zero (n : Nat) :
    ¬ ((natToChars n).length > 1 ∧ (natToChars n).headD 'x' = '0') := by
  rintro ⟨hlen, hhead⟩
  have h0 := natToChars_head_zero n hhead
  subst h0
  rw [show natToChars 0 = ['0'] by rw [natToChars_eq]; rfl] at hlen
  simp at hlen

theorem parseNumCore_natToChars (neg : Bool) (n : Nat) (rest : List Char)
    (h : goodFollow rest) :
    parseNumCore neg (natToChars n ++ rest) =
      Option.some (.int (if neg then -(n : Int) else (n : Int)), rest) := by
  unfold parseNumCore
  rw [scanDigits_append (natToChars n) rest (natToChars_digits n)
    (goodFollow_head_not_digit rest h)]
  dsimp only
  rw [if_neg (by simpa using natToChars_ne_nil n),
    if_neg (natToChars_no_leading_zero n),
    goodFollow_head_not_dot rest h]
  dsimp only
  rw [goodFollow_head_not_exp rest h]
  rw [if_pos ⟨rfl, rfl⟩, digitsVal_natToChars]

theorem parseNum_intToChars (n : Int) (rest : List Char) (h : goodFollow rest) :
    parseNum (intToChars n ++ rest) = Option.some (.int n, rest) := by
  unfold intToChars
  by_cases hn : n < 0
  · rw [if_pos hn,
      show ('-' :: natToChars n.natAbs) ++ rest = '-' :: (natToChars n.natAbs ++ rest)
        from rfl]
    obtain ⟨d, ds, hd⟩ := List.exists_cons_of_ne_nil (natToChars_ne_nil n.natAbs)
    have hdig : d.isDigit = true := by
      apply natToChars_digits n.natAbs
      rw [hd]
      exact List.mem_cons_self _ _
    have hdI : ¬ d = 'I' := by
      intro hc
      rw [hc] at hdig
      exact absurd hdig (by decide)
    rw [parseNum.eq_def]
    dsimp only
    rw [if_pos rfl, hd, List.cons_append]
    dsimp only
    rw [if_neg hdI, ← List.cons_append, ← hd,
      parseNumCore_natToChars true n.natAbs rest h]
    have : -((n.natAbs : Nat) : Int) = n := by omega
    rw [if_pos rfl, this]
  · rw [if_neg hn]
    obtain ⟨d, ds, hd⟩ := List.exists_cons_of_ne_nil (natToChars_ne_nil n.toNat)
    have hdig : d.isDigit = true := by
      apply natToChars_digits n.toNat
      rw [hd]
      exact List.mem_cons_self _ _
    have hdm : ¬ d = '-' := by
      intro hc
      rw [hc] at hdig
      exact absurd hdig (by decide)
    rw [hd, List.cons_append, parseNum.eq_def]
    dsimp only
    rw [if_neg hdm, ← List.cons_append, ← hd, parseNumCore_natToChars false n.toNat rest h]
    have : ((n.toNat : Nat) : Int) = n := by omega
    rw [if_neg (by simp), this]

/-! ### JSON round-trip: scanner dispatch plumbing -/

theorem skipWs_cons_nonws (c : Char) (x : List Char) (h : isJsonWs c = false) :
    skipWs (c :: x) = c :: x := by
  simp [skipWs, h]

theorem skipWs_space (x : List Char) : skipWs (' ' :: x) = skipWs x := by
  simp [skipWs, isJsonWs]

theorem parseVal_space (fuel : Nat) (x : List Char) :
    parseVal fuel (' ' :: x) = parseVal fuel x := by
  cases fuel with
  | zero => rfl
  | succ f =>
    rw [parseVal.eq_def]
    dsimp only
    rw [skipWs_space]
    conv_rhs => rw [parseVal.eq_def]

theorem parseElems_space (fuel : Nat) (x : List Char) :
    parseElems fuel (' ' :: x) = parseElems fuel x := by
  cases fuel with
  | zero => rfl
  | succ f =>
    rw [parseElems.eq_def]
    dsimp only
    rw [parseVal_space]
    conv_rhs => rw [parseElems.eq_def]

theorem parseMembers_space (fuel : Nat) (x : List Char) :
    parseMembers fuel (' ' :: x) = parseMembers fuel x := by
  cases fuel with
  | zero => rfl
  | succ f =>
    rw [parseMembers.eq_def]
    dsimp only
    rw [skipWs_space]
    conv_rhs => rw [parseMembers.eq_def]

theorem expectChars_self (ps : List Char) :
    ∀ rest : List Char, expectChars ps (ps ++ rest) = Option.some rest := by
  induction ps with
  | nil => intro rest; rfl
  | cons p tl ih =>
    intro rest
    rw [List.cons_append]
    simp only [expectChars, if_true]
    exact ih rest

theorem not_eq_of_isDigit (c : Char) (h : c.isDigit = true) :
    ∀ d : Char, d.isDigit = false → ¬ c = d := by
  intro d hd hc
  subst hc
  rw [h] at hd
  cases hd

theorem isJsonWs_of_isDigit (c : Char) (h : c.isDigit = true) : isJsonWs c = false := by
  simp only [isJsonWs, Bool.or_eq_false_iff, decide_eq_false_iff_not]
  exact ⟨⟨⟨not_eq_of_isDigit c h ' ' (by decide), not_eq_of_isDigit c h '\t' (by decide)⟩,
    not_eq_of_isDigit c h '\n' (by decide)⟩, not_eq_of_isDigit c h '\r' (by decide)⟩

theorem intToChars_head (n : Int) :
    ∃ c cs, intToChars n = c :: cs ∧ (c.isDigit = true ∨ c = '-') := by
  unfold intToChars
  by_cases h : n < 0
  · rw [if_pos h]
    exact ⟨'-', natToChars n.natAbs, rfl, Or.inr rfl⟩
  · rw [if_neg h]
    obtain ⟨d, ds, hd⟩ := List.exists_cons_of_ne_nil (natToChars_ne_nil n.toNat)
    refine ⟨d, ds, hd, Or.inl ?_⟩
    apply natToChars_digits n.toNat
    rw [hd]
    exact List.mem_cons_self _ _

theorem numHead_facts (c : Char) (h : c.isDigit = true ∨ c = '-') :
    isJsonWs c = false ∧ ¬ c = '"' ∧ ¬ c = '[' ∧ ¬ c = '{' ∧ ¬ c = 't' ∧ ¬ c = 'f' ∧
    ¬ c = 'n' ∧ ¬ c = 'N' ∧ ¬ c = 'I' := by
  rcases h with h | h
  · exact ⟨isJsonWs_of_isDigit c h, not_eq_of_isDigit c h '"' (by decide),
      not_eq_of_isDigit c h '[' (by decide), not_eq_of_isDigit c h '{' (by decide),
      not_eq_of_isDigit c h 't' (by decide), not_eq_of_isDigit c h 'f' (by decide),
      not_eq_of_isDigit c h 'n' (by decide), not_eq_of_isDigit c h 'N' (by decide),
      not_eq_of_isDigit c h 'I' (by decide)⟩
  · subst h
    exact ⟨by decide, by decide, by decide, by decide, by decide, by decide, by decide,
      by decide, by decide⟩

theorem dumpsList_cons_decomp (v : PyVal) (vs : List PyVal) :
    ∃ tail, dumpsList (v :: vs) = dumps v ++ tail := by
  cases vs with
  | nil => exact ⟨[], by simp [dumpsList]⟩
  | cons a b => exact ⟨',' :: ' ' :: dumpsList (a :: b), by simp only [dumpsList]⟩

theorem dumps_head_fact (v : PyVal) (h : noFloat v = true) :
    ∃ c cs, dumps v = c :: cs ∧ isJsonWs c = false ∧ ¬ c = ']' ∧ ¬ c = '}' := by
  cases v with
  | str s =>
    exact ⟨'"', escapeStr s ++ ['"'], by simp only [dumps], by decide, by decide, by decide⟩
  | int n =>
    obtain ⟨c, cs, hc, hdc⟩ := intToChars_head n
    refine ⟨c, cs, by simp only [dumps, hc], ?_, ?_, ?_⟩
    · rcases hdc with hd | hd
      · exact isJsonWs_of_isDigit c hd
      · subst hd; decide
    · rcases hdc with hd | hd
      · exact not_eq_of_isDigit c hd ']' (by decide)
      · subst hd; decide
    · rcases hdc with hd | hd
      · exact not_eq_of_isDigit c hd '}' (by decide)
      · subst hd; decide
  | bool b =>
    cases b
    · exact ⟨'f', ['a', 'l', 's', 'e'], by simp only [dumps], by decide, by decide, by decide⟩
    · exact ⟨'t', ['r', 'u', 'e'], by simp only [dumps], by decide, by decide, by decide⟩
  | noneV =>
    exact ⟨'n', ['u', 'l', 'l'], by simp only [dumps], by decide, by decide, by decide⟩
  | floatLit s => simp [noFloat] at h
  | list l =>
    exact ⟨'[', dumpsList l ++ [']'], by simp only [dumps], by decide, by decide, by decide⟩
  | dict d =>
    exact ⟨'{', dumpsDict d ++ ['}'], by simp only [dumps], by decide, by decide, by decide⟩

theorem mval_pos (v : PyVal) : 1 ≤ mval v := by
  cases v <;> simp [mval]

theorem needElems_pos (v : PyVal) (vs : List PyVal) : 1 ≤ needElems (v :: vs) := by
  simp [needElems]

theorem needMembers_pos (k : List Char) (v : PyVal) (es : List (List Char × PyVal)) :
    1 ≤ needMembers ((k, v) :: es) := by
  simp [needMembers]

theorem parse_dumps_go : ∀ fuel : Nat,
    (∀ (v : PyVal) (rest : List Char), noFloat v = true → goodFollow rest →
      mval v ≤ fuel → parseVal fuel (dumps v ++ rest) = Option.some (v, rest)) ∧
    (∀ (l : List PyVal) (rest : List Char), l ≠ [] → noFloatList l = true →
      needElems l ≤ fuel →
      parseElems fuel (dumpsList l ++ ']' :: rest) = Option.some (l, rest)) ∧
    (∀ (d : List (List Char × PyVal)) (rest : List Char), d ≠ [] →
      noFloatDict d = true → needMembers d ≤ fuel →
      parseMembers fuel (dumpsDict d ++ '}' :: rest) = Option.some (d, rest)) := by
  intro fuel
  induction fuel with
  | zero =>
    refine ⟨?_, ?_, ?_⟩
    · intro v rest _ _ hm
      exact absurd hm (by have := mval_pos v; omega)
    · intro l rest hne _ hm
      cases l with
      | nil => exact absurd rfl hne
      | cons v vs => exact absurd hm (by have := needElems_pos v vs; omega)
    · intro d rest hne _ hm
      cases d with
      | nil => exact absurd rfl hne
      | cons kv es =>
        obtain ⟨k, v⟩ := kv
        exact absurd hm (by have := needMembers_pos k v es; omega)
  | succ fuel ih =>
    obtain ⟨ihV, ihE, ihM⟩ := ih
    refine ⟨?_, ?_, ?_⟩
    · intro v rest hnf hgf hm
      cases v with
      | str s =>
        rw [show dumps (.str s) ++ rest = '"' :: (escapeStr s ++ '"' :: rest) by
          simp only [dumps]
          simp]
        rw [parseVal.eq_def]
        dsimp only
        rw [skipWs_cons_nonws _ _ (by decide)]
        dsimp only
        rw [if_pos rfl]
        rw [parseStrBody_escapeStr s ((escapeStr s ++ '"' :: rest).length + 1) rest
          (by have := length_le_escapeStr s; simp [List.length_append]; omega)]
      | int n =>
        rw [show dumps (.int n) = intToChars n from by simp only [dumps]]
        obtain ⟨c, cs, hc, hdc⟩ := intToChars_head n
        obtain ⟨hws, hqt, hlb, hcb, ht, hf, hn, hN, hI⟩ := numHead_facts c hdc
        rw [hc, List.cons_append, parseVal.eq_def]
        dsimp only
        rw [skipWs_cons_nonws _ _ hws]
        dsimp only
        rw [if_neg hqt, if_neg hlb, if_neg hcb, if_neg ht,
          if_neg hf, if_neg hn, if_neg hN, if_neg hI,
          ← List.cons_append, ← hc, parseNum_intToChars n rest hgf]
      | bool b =>
        cases b
        · rw [show dumps (.bool false) ++ rest = 'f' :: (['a', 'l', 's', 'e'] ++ rest) by
            simp only [dumps]
            rfl]
          rw [parseVal.eq_def]
          dsimp only
          rw [skipWs_cons_nonws _ _ (by decide)]
          dsimp only
          rw [if_neg (by decide), if_neg (by decide),
            if_neg (by decide), if_neg (by decide), if_pos rfl, expectChars_self]
        · rw [show dumps (.bool true) ++ rest = 't' :: (['r', 'u', 'e'] ++ rest) by
            simp only [dumps]
            rfl]
          rw [parseVal.eq_def]
          dsimp only
          rw [skipWs_cons_nonws _ _ (by decide)]
          dsimp only
          rw [if_neg (by decide), if_neg (by decide),
            if_neg (by decide), if_pos rfl, expectChars_self]
      | noneV =>
        rw [show dumps PyVal.noneV ++ rest = 'n' :: (['u', 'l', 'l'] ++ rest) by
          simp only [dumps]
          rfl]
        rw [parseVal.eq_def]
        dsimp only
        rw [skipWs_cons_nonws _ _ (by decide)]
        dsimp only
        rw [if_neg (by decide), if_neg (by decide),
          if_neg (by decide), if_neg (by decide), if_neg (by decide), if_pos rfl,
          expectChars_self]
      | floatLit s => simp [noFloat] at hnf
      | list l =>
        cases l with
        | nil =>
          rw [show dumps (.list []) ++ rest = '[' :: ']' :: rest by
            simp only [dumps, dumpsList]
            rfl]
          rw [parseVal.eq_def]
          dsimp only
          rw [skipWs_cons_nonws _ _ (by decide)]
          dsimp only
          rw [if_neg (by decide), if_pos rfl, skipWs_cons_nonws _ _ (by decide)]
          simp [List.headD_cons]
        | cons v vs =>
          have hnfl : noFloatList (v :: vs) = true := by
            rw [show noFloat (.list (v :: vs)) = noFloatList (v :: vs) from by
              simp only [noFloat]] at hnf
            exact hnf
          have hnev : needElems (v :: vs) ≤ fuel := by
            rw [show mval (.list (v :: vs)) = 1 + max 1 (needElems (v :: vs)) from by
              simp only [mval]] at hm
            have := le_max_right 1 (needElems (v :: vs))
            omega
          have hnfv : noFloat v = true := by
            simp only [noFloatList, Bool.and_eq_true] at hnfl
            exact hnfl.1
          rw [show dumps (.list (v :: vs)) ++ rest =
            '[' :: (dumpsList (v :: vs) ++ ']' :: rest) by
              simp only [dumps]
              simp]
          rw [parseVal.eq_def]
          dsimp only
          rw [skipWs_cons_nonws _ _ (by decide)]
          dsimp only
          rw [if_neg (by decide), if_pos rfl]
          obtain ⟨tail, htail⟩ := dumpsList_cons_decomp v vs
          obtain ⟨c0, cs0, hc0, hws0, hrb0, hcb0⟩ := dumps_head_fact v hnfv
          rw [show dumpsList (v :: vs) ++ ']' :: rest =
            c0 :: (cs0 ++ tail ++ ']' :: rest) by
              rw [htail, hc0]
              simp [List.append_assoc]]
          rw [skipWs_cons_nonws _ _ hws0, List.headD_cons, if_neg hrb0]
          rw [show c0 :: (cs0 ++ tail ++ ']' :: rest) =
            dumpsList (v :: vs) ++ ']' :: rest by
              rw [htail, hc0]
              simp [List.append_assoc]]
          rw [ihE (v :: vs) rest (by simp) hnfl hnev]
      | dict d =>
        cases d with
        | nil =>
          rw [show dumps (.dict []) ++ rest = '{' :: '}' :: rest by
            simp only [dumps, dumpsDict]
            rfl]
          rw [parseVal.eq_def]
          dsimp only
          rw [skipWs_cons_nonws _ _ (by decide)]
          dsimp only
          rw [if_neg (by decide), if_neg (by decide),
            if_pos rfl, skipWs_cons_nonws _ _ (by decide)]
          simp [List.headD_cons]
        | cons kv es =>
          obtain ⟨k, v⟩ := kv
          have hnfd : noFloatDict ((k, v) :: es) = true := by
            rw [show noFloat (.dict ((k, v) :: es)) = noFloatDict ((k, v) :: es) from by
              simp only [noFloat]] at hnf
            exact hnf
          have hnem : needMembers ((k, v) :: es) ≤ fuel := by
            rw [show mval (.dict ((k, v) :: es)) =
              1 + max 1 (needMembers ((k, v) :: es)) from by simp only [mval]] at hm
            have := le_max_right 1 (needMembers ((k, v) :: es))
            omega
          rw [show dumps (.dict ((k, v) :: es)) ++ rest =
            '{' :: (dumpsDict ((k, v) :: es) ++ '}' :: rest) by
              simp only [dumps]
              simp]
          rw [parseVal.eq_def]
          dsimp only
          rw [skipWs_cons_nonws _ _ (by decide)]
          dsimp only
          rw [if_neg (by decide), if_neg (by decide),
            if_pos rfl]
          have hddh : ∃ tail2, dumpsDict ((k, v) :: es) = '"' :: tail2 := by
            cases es with
            | nil => exact ⟨escapeStr k ++ '"' :: ':' :: ' ' :: dumps v, by
                simp only [dumpsDict, dumpsEntry]⟩
            | cons kv2 es2 => exact ⟨escapeStr k ++ '"' :: ':' :: ' ' :: dumps v ++
                ',' :: ' ' :: dumpsDict (kv2 :: es2), by
                simp only [dumpsDict, dumpsEntry]
                simp [List.append_assoc]⟩
          obtain ⟨tail2, htail2⟩ := hddh
          rw [show dumpsDict ((k, v) :: es) ++ '}' :: rest =
            '"' :: (tail2 ++ '}' :: rest) by rw [htail2]; rfl]
          rw [skipWs_cons_nonws _ _ (by decide), List.headD_cons, if_neg (by decide)]
          rw [show ('"' : Char) :: (tail2 ++ '}' :: rest) =
            dumpsDict ((k, v) :: es) ++ '}' :: rest by rw [htail2]; rfl]
          rw [ihM ((k, v) :: es) rest (by simp) hnfd hnem]
    · intro l rest hne hnfl hfe
      cases l with
      | nil => exact absurd rfl hne
      | cons v vs =>
        have hnfv : noFloat v = true := by
          simp only [noFloatList, Bool.and_eq_true] at hnfl
          exact hnfl.1
        have hnfvs : noFloatList vs = true := by
          simp only [noFloatList, Bool.and_eq_true] at hnfl
          exact hnfl.2
        have hmv : mval v ≤ fuel := by
          rw [show needElems (v :: vs) = 1 + max (mval v) (needElems vs) from by
            simp only [needElems]] at hfe
          have := le_max_left (mval v) (needElems vs)
          omega
        rw [parseElems.eq_def]
        dsimp only
        cases vs with
        | nil =>
          rw [show dumpsList [v] = dumps v from by simp only [dumpsList]]
          rw [ihV v (']' :: rest) hnfv (Or.inr (Or.inl rfl)) hmv]
          dsimp only
          rw [skipWs_cons_nonws _ _ (by decide)]
          dsimp only
          rw [if_neg (by decide), if_pos rfl]
        | cons v2 vs2 =>
          have hnevs : needElems (v2 :: vs2) ≤ fuel := by
            rw [show needElems (v :: v2 :: vs2) =
              1 + max (mval v) (needElems (v2 :: vs2)) from by simp only [needElems]] at hfe
            have := le_max_right (mval v) (needElems (v2 :: vs2))
            omega
          rw [show dumpsList (v :: v2 :: vs2) ++ ']' :: rest =
            dumps v ++ (',' :: ' ' :: (dumpsList (v2 :: vs2) ++ ']' :: rest)) by
              simp only [dumpsList]
              simp [List.append_assoc]]
          rw [ihV v (',' :: ' ' :: (dumpsList (v2 :: vs2) ++ ']' :: rest)) hnfv
            (Or.inl rfl) hmv]
          dsimp only
          rw [skipWs_cons_nonws _ _ (by decide)]
          dsimp only
          rw [if_pos rfl, parseElems_space,
            ihE (v2 :: vs2) rest (by simp) hnfvs hnevs]
    · intro d rest hne hnfd hfm
      cases d with
      | nil => exact absurd rfl hne
      | cons kv es =>
        obtain ⟨k, v⟩ := kv
        have hnfv : noFloat v = true := by
          simp only [noFloatDict, Bool.and_eq_true] at hnfd
          exact hnfd.1
        have hnfes : noFloatDict es = true := by
          simp only [noFloatDict, Bool.and_eq_true] at hnfd
          exact hnfd.2
        have hmv : mval v ≤ fuel := by
          rw [show needMembers ((k, v) :: es) = 1 + max (mval v) (needMembers es) from by
            simp only [needMembers]] at hfm
          have := le_max_left (mval v) (needMembers es)
          omega
        rw [parseMembers.eq_def]
        dsimp only
        cases es with
        | nil =>
          rw [show dumpsDict [(k, v)] ++ '}' :: rest =
            '"' :: (escapeStr k ++ '"' :: (':' :: (' ' :: (dumps v ++ '}' :: rest)))) by
              simp only [dumpsDict, dumpsEntry]
              simp [List.append_assoc]]
          rw [skipWs_cons_nonws _ _ (by decide)]
          dsimp only
          rw [if_pos rfl]
          rw [parseStrBody_escapeStr k _ _ (by
            have := length_le_escapeStr k
            simp [List.length_append]
            omega)]
          dsimp only
          rw [skipWs_cons_nonws _ _ (by decide)]
          dsimp only
          rw [if_pos rfl, parseVal_space,
            ihV v ('}' :: rest) hnfv (Or.inr (Or.inr rfl)) hmv]
          dsimp only
          rw [skipWs_cons_nonws _ _ (by decide)]
          dsimp only
          rw [if_neg (by decide), if_pos rfl]
        | cons kv2 es2 =>
          have hnem2 : needMembers (kv2 :: es2) ≤ fuel := by
            rw [show needMembers ((k, v) :: kv2 :: es2) =
              1 + max (mval v) (needMembers (kv2 :: es2)) from by
                simp only [needMembers]] at hfm
            have := le_max_right (mval v) (needMembers (kv2 :: es2))
            omega
          rw [show dumpsDict ((k, v) :: kv2 :: es2) ++ '}' :: rest =
            '"' :: (escapeStr k ++ '"' :: (':' :: (' ' :: (dumps v ++
              ',' :: ' ' :: (dumpsDict (kv2 :: es2) ++ '}' :: rest))))) by
              simp only [dumpsDict, dumpsEntry]
              simp [List.append_assoc]]
          rw [skipWs_cons_nonws _ _ (by decide)]
          dsimp only
          rw [if_pos rfl]
          rw [parseStrBody_escapeStr k _ _ (by
            have := length_le_escapeStr k
            simp [List.length_append]
            omega)]
          dsimp only
          rw [skipWs_cons_nonws _ _ (by decide)]
          dsimp only
          rw [if_pos rfl, parseVal_space,
            ihV v (',' :: ' ' :: (dumpsDict (kv2 :: es2) ++ '}' :: rest)) hnfv
              (Or.inl rfl) hmv]
          dsimp only
          rw [skipWs_cons_nonws _ _ (by decide)]
          dsimp only
          rw [if_pos rfl, parseMembers_space,
            ihM (kv2 :: es2) rest (by simp) hnfes hnem2]

theorem intToChars_ne_nil (n : Int) : intToChars n ≠ [] := by
  obtain ⟨c, cs, h, _⟩ := intToChars_head n
  simp [h]

/-- The fuel estimate mval never exceeds the length of the rendering (plus
one for element lists), so the fuel parse passes suffices on any dumps
output. -/
theorem size_go : ∀ n : Nat,
    (∀ v : PyVal, noFloat v = true → mval v ≤ n → mval v ≤ (dumps v).length) ∧
    (∀ l : List PyVal, noFloatList l = true → needElems l ≤ n →
      needElems l ≤ (dumpsList l).length + 1) ∧
    (∀ d : List (List Char × PyVal), noFloatDict d = true → needMembers d ≤ n →
      needMembers d ≤ (dumpsDict d).length + 1) := by
  intro n
  induction n with
  | zero =>
    refine ⟨?_, ?_, ?_⟩
    · intro v _ hm
      exact absurd hm (by have := mval_pos v; omega)
    · intro l _ hm
      cases l with
      | nil => simp [needElems]
      | cons v vs => exact absurd hm (by have := needElems_pos v vs; omega)
    · intro d _ hm
      cases d with
      | nil => simp [needMembers]
      | cons kv es =>
        obtain ⟨k, v⟩ := kv
        exact absurd hm (by have := needMembers_pos k v es; omega)
  | succ n ih =>
    obtain ⟨ihV, ihE, ihM⟩ := ih
    refine ⟨?_, ?_, ?_⟩
    · intro v hf hm
      cases v with
      | str s =>
        simp only [mval, dumps, List.length_cons, List.length_append,
          List.length_nil]
        omega
      | int m =>
        have h1 : 1 ≤ (intToChars m).length := by
          cases hi : intToChars m with
          | nil => exact absurd hi (intToChars_ne_nil m)
          | cons c cs => simp
        simpa [mval, dumps] using h1
      | bool b =>
        cases b <;>
          simp only [mval, dumps, List.length_cons, List.length_nil] <;> omega
      | noneV =>
        simp only [mval, dumps, List.length_cons, List.length_nil]
        omega
      | floatLit s => exact absurd hf (by simp [noFloat])
      | list l =>
        have hfl : noFloatList l = true := by simpa [noFloat] using hf
        have hml : needElems l ≤ n := by
          simp only [mval] at hm
          have := le_max_right 1 (needElems l)
          omega
        have hb := ihE l hfl hml
        have hmax : max 1 (needElems l) ≤ (dumpsList l).length + 1 :=
          max_le (by omega) hb
        simp only [mval, dumps, List.length_cons, List.length_append,
          List.length_nil]
        omega
      | dict d =>
        have hfd : noFloatDict d = true := by simpa [noFloat] using hf
        have hmd : needMembers d ≤ n := by
          simp only [mval] at hm
          have := le_max_right 1 (needMembers d)
          omega
        have hb := ihM d hfd hmd
        have hmax : max 1 (needMembers d) ≤ (dumpsDict d).length + 1 :=
          max_le (by omega) hb
        simp only [mval, dumps, List.length_cons, List.length_append,
          List.length_nil]
        omega
    · intro l hf hm
      cases l with
      | nil => simp [needElems]
      | cons v vs =>
        have hfv : noFloat v = true := by
          simp only [noFloatList, Bool.and_eq_true] at hf
          exact hf.1
        have hfvs : noFloatList vs = true := by
          simp only [noFloatList, Bool.and_eq_true] at hf
          exact hf.2
        have hmv : mval v ≤ n := by
          rw [show needElems (v :: vs) = 1 + max (mval v) (needElems vs) from by
            simp only [needElems]] at hm
          have := le_max_left (mval v) (needElems vs)
          omega
        have hv := ihV v hfv hmv
        have hv1 : 1 ≤ (dumps v).length := le_trans (mval_pos v) hv
        cases vs with
        | nil =>
          rw [show needElems [v] = 1 + max (mval v) 0 from by
            simp only [needElems]]
          rw [show dumpsList [v] = dumps v from by simp only [dumpsList]]
          have h1 := le_max_left (mval v) 0
          have h2 : max (mval v) 0 ≤ mval v :=
            max_le (le_refl (mval v)) (Nat.zero_le (mval v))
          omega
        | cons v2 vs2 =>
          have hmvs : needElems (v2 :: vs2) ≤ n := by
            rw [show needElems (v :: v2 :: vs2) =
              1 + max (mval v) (needElems (v2 :: vs2)) from by
                simp only [needElems]] at hm
            have := le_max_right (mval v) (needElems (v2 :: vs2))
            omega
          have hvs := ihE (v2 :: vs2) hfvs hmvs
          rw [show needElems (v :: v2 :: vs2) =
            1 + max (mval v) (needElems (v2 :: vs2)) from by
              simp only [needElems]]
          rw [show dumpsList (v :: v2 :: vs2) =
            dumps v ++ ',' :: ' ' :: dumpsList (v2 :: vs2) from by
              simp only [dumpsList]]
          have hmax : max (mval v) (needElems (v2 :: vs2)) ≤
              (dumps v).length + (dumpsList (v2 :: vs2)).length + 1 :=
            max_le (by omega) (by omega)
          simp only [List.length_append, List.length_cons]
          omega
    · intro d hf hm
      cases d with
      | nil => simp [needMembers]
      | cons kv es =>
        obtain ⟨k, v⟩ := kv
        have hfv : noFloat v = true := by
          simp only [noFloatDict, Bool.and_eq_true] at hf
          exact hf.1
        have hfes : noFloatDict es = true := by
          simp only [noFloatDict, Bool.and_eq_true] at hf
          exact hf.2
        have hmv : mval v ≤ n := by
          rw [show needMembers ((k, v) :: es) =
            1 + max (mval v) (needMembers es) from by
              simp only [needMembers]] at hm
          have := le_max_left (mval v) (needMembers es)
          omega
        have hv := ihV v hfv hmv
        cases es with
        | nil =>
          rw [show needMembers [(k, v)] = 1 + max (mval v) 0 from by
            simp only [needMembers]]
          rw [show dumpsDict [(k, v)] = dumpsEntry k v from by
            simp only [dumpsDict]]
          have h1 := le_max_left (mval v) 0
          have h2 : max (mval v) 0 ≤ mval v :=
            max_le (le_refl (mval v)) (Nat.zero_le (mval v))
          simp only [dumpsEntry, List.length_cons, List.length_append]
          omega
        | cons kv2 es2 =>
          have hmes : needMembers (kv2 :: es2) ≤ n := by
            rw [show needMembers ((k, v) :: kv2 :: es2) =
              1 + max (mval v) (needMembers (kv2 :: es2)) from by
                simp only [needMembers]] at hm
            have := le_max_right (mval v) (needMembers (kv2 :: es2))
            omega
          have hes := ihM (kv2 :: es2) hfes hmes
          rw [show needMembers ((k, v) :: kv2 :: es2) =
            1 + max (mval v) (needMembers (kv2 :: es2)) from by
              simp only [needMembers]]
          rw [show dumpsDict ((k, v) :: kv2 :: es2) =
            dumpsEntry k v ++ ',' :: ' ' :: dumpsDict (kv2 :: es2) from by
              simp only [dumpsDict]]
          have hmax : max (mval v) (needMembers (kv2 :: es2)) ≤
              (dumpsEntry k v).length + (dumpsDict (kv2 :: es2)).length + 1 := by
            refine max_le ?_ (by omega)
            have : mval v ≤ (dumps v).length := hv
            simp only [dumpsEntry, List.length_cons, List.length_append]
            omega
          simp only [List.length_append, List.length_cons]
          omega

/-- json.loads inverts json.dumps on every float-free value. -/
theorem parse_dumps (v : PyVal) (h : noFloat v = true) :
    parse (dumps v) = Option.some v := by
  have hle : mval v ≤ (dumps v).length + 1 := by
    have := (size_go (mval v)).1 v h (le_refl (mval v))
    omega
  have hgo := (parse_dumps_go ((dumps v).length + 1)).1 v [] h
    (by simp [goodFollow]) hle
  rw [List.append_nil] at hgo
  unfold parse
  rw [hgo]
  simp [skipWs]

/-- get_call_payload keeps strings that json.loads rejects verbatim. -/
theorem maybeJson_of_parse_none (s : List Char) (h : parse s = Option.none) :
    maybeJson s = PyVal.str s := by
  unfold maybeJson
  rw [h]

/-- get_call_payload decodes a json.dumps-stored value back to the value. -/
theorem maybeJson_dumps (v : PyVal) (h : noFloat v = true) :
    maybeJson (dumps v) = v := by
  unfold maybeJson
  rw [parse_dumps v h]

/-- Looking a key up after mapping a function over the values. -/
theorem lookup_map_val {α β γ : Type} [BEq α] (f : β → γ) (k : α) :
    ∀ l : List (α × β),
      (l.map (fun e => (e.1, f e.2))).lookup k = (l.lookup k).map f := by
  intro l
  induction l with
  | nil => rfl
  | cons e t ih =>
    obtain ⟨a, b⟩ := e
    by_cases hk : (k == a) = true
    · simp [List.lookup, hk]
    · simp only [Bool.not_eq_true] at hk
      simp [List.lookup, hk, ih]

/-- Lookup in an appended association list hits the left part when the key
is bound there. -/
theorem lookup_append_left {α β : Type} [BEq α] (k : α) (l2 : List (α × β)) :
    ∀ l1 : List (α × β), (l1.lookup k).isSome = true →
      (l1 ++ l2).lookup k = l1.lookup k := by
  intro l1
  induction l1 with
  | nil => intro h; simp [List.lookup] at h
  | cons e t ih =>
    intro h
    obtain ⟨a, b⟩ := e
    by_cases hk : (k == a) = true
    · simp [List.lookup, hk]
    · simp only [Bool.not_eq_true] at hk
      simp only [List.lookup, hk] at h
      simp [List.lookup, hk, ih h]

/-- HSET gives the written fields priority over the old hash contents. -/
theorem lookup_hSet_left (old new : Hash) (k : List Char)
    (h : (new.lookup k).isSome = true) :
    (hSet old new).lookup k = new.lookup k := by
  unfold hSet
  exact lookup_append_left k _ new h

/-- save_failure_and_schedule_retry writes the serialized payload into the
call hash (retaining unmentioned old fields) and leaves other hashes alone. -/
theorem hashes_save_failure (cid call_id : String) (payload : Payload)
    (delay nowT0 : Int) (r : RedisState) :
    (save_failure_and_schedule_retry cid call_id payload delay nowT0 r).hashes
      = (call_id, hSet ((r.hashes.lookup call_id).getD [])
          (payload.map (fun e => (e.1, serializeField e.2)))) ::
        r.hashes.filter (fun e => e.1 ≠ call_id) := rfl

/-- save_failure_and_schedule_retry schedules the call at now plus delay. -/
theorem zset_save_failure (cid call_id : String) (payload : Payload)
    (delay nowT0 : Int) (r : RedisState) :
    zsetOf (save_failure_and_schedule_retry cid call_id payload delay nowT0 r)
        cid
      = zAdd (zsetOf r cid) call_id (nowT0 + delay) := by
  unfold save_failure_and_schedule_retry
  dsimp only
  rw [zsetOf_setZset]
  rfl

/-- The claim loop on an empty index returns nothing. -/
theorem claim_go_nil (now : Int) :
    ∀ n : Nat, claim_due_retries_go now n [] = ([], []) := by
  intro n
  cases n with
  | zero => rfl
  | succ m => simp [claim_due_retries_go, zRangeByScoreHead]

/-- The claim loop on a one-entry due index claims exactly that entry. -/
theorem claim_go_single (now s : Int) (id : String) (n : Nat) (hs : s ≤ now) :
    claim_due_retries_go now (Nat.succ n) [(id, s)] = ([id], []) := by
  simp only [claim_due_retries_go]
  rw [show zRangeByScoreHead [(id, s)] now = Option.some id from by
    simp [zRangeByScoreHead, hs]]
  dsimp only
  rw [show zrem [(id, s)] id = [] from by simp [zrem]]
  rw [claim_go_nil]

/-- C4 counterexample: a payload whose "p" field is the string "1" does not
come back verbatim: the stored text parses as json, so get_call_payload
returns the number 1 where the string "1" was written. -/
theorem C4_counterexample :
    (claim_due_retries "c" 1 0
        (save_failure_and_schedule_retry "c" "X" [(['p'], PyVal.str ['1'])] 0 0
          RedisState.empty)).1 = ["X"] ∧
    (get_call_payload "X"
        (claim_due_retries "c" 1 0
          (save_failure_and_schedule_retry "c" "X" [(['p'], PyVal.str ['1'])] 0
            0 RedisState.empty)).2).lookup ['p']
      = Option.some (PyVal.int 1) := by
  constructor
  · rfl
  · rfl

/-- C4 (corrected): after save_failure_and_schedule_retry on a previously
empty retry index, a claim_due_retries at or past the due instant returns
exactly the saved call id, and get_call_payload then recovers the written
fields with the serialization round trip the code actually performs: dict
and list values decode back to equal objects, while a string value comes
back verbatim exactly when the stored text is not itself parseable as
json. -/
theorem C4_payload_roundtrip (cid call_id : String) (payload : Payload)
    (delay nowT0 nowT : Int) (n : Nat) (r0 : RedisState)
    (hz : zsetOf r0 cid = [])
    (hdue : nowT0 + delay ≤ nowT) :
    (claim_due_retries cid (Nat.succ n) nowT
        (save_failure_and_schedule_retry cid call_id payload delay nowT0
          r0)).1 = [call_id] ∧
    ∀ k v, payload.lookup k = Option.some v →
      (∀ d, v = PyVal.dict d → noFloatDict d = true →
        (get_call_payload call_id
            (claim_due_retries cid (Nat.succ n) nowT
              (save_failure_and_schedule_retry cid call_id payload delay nowT0
                r0)).2).lookup k = Option.some v) ∧
      (∀ l, v = PyVal.list l → noFloatList l = true →
        (get_call_payload call_id
            (claim_due_retries cid (Nat.succ n) nowT
              (save_failure_and_schedule_retry cid call_id payload delay nowT0
                r0)).2).lookup k = Option.some v) ∧
      (∀ s, v = PyVal.str s → parse s = Option.none →
        (get_call_payload call_id
            (claim_due_retries cid (Nat.succ n) nowT
              (save_failure_and_schedule_retry cid call_id payload delay nowT0
                r0)).2).lookup k = Option.some v) := by
  have hz1 : zsetOf (save_failure_and_schedule_retry cid call_id payload delay
      nowT0 r0) cid = [(call_id, nowT0 + delay)] := by
    rw [zset_save_failure, hz]
    rfl
  have hclaim : claim_due_retries cid (Nat.succ n) nowT
      (save_failure_and_schedule_retry cid call_id payload delay nowT0 r0)
    = ([call_id], setZset (save_failure_and_schedule_retry cid call_id payload
        delay nowT0 r0) cid []) := by
    unfold claim_due_retries
    dsimp only
    rw [hz1, claim_go_single nowT (nowT0 + delay) call_id n hdue]
  have hget : ∀ k v, payload.lookup k = Option.some v →
      (get_call_payload call_id
          (claim_due_retries cid (Nat.succ n) nowT
            (save_failure_and_schedule_retry cid call_id payload delay nowT0
              r0)).2).lookup k
        = Option.some (maybeJson (serializeField v)) := by
    intro k v hkv
    rw [hclaim]
    dsimp only
    unfold get_call_payload
    rw [show (setZset (save_failure_and_schedule_retry cid call_id payload
        delay nowT0 r0) cid []).hashes
      = (save_failure_and_schedule_retry cid call_id payload delay nowT0
          r0).hashes from rfl]
    rw [hashes_save_failure]
    rw [show List.lookup call_id ((call_id,
        hSet ((r0.hashes.lookup call_id).getD [])
          (payload.map (fun e => (e.1, serializeField e.2)))) ::
        r0.hashes.filter (fun e => e.1 ≠ call_id))
      = Option.some (hSet ((r0.hashes.lookup call_id).getD [])
          (payload.map (fun e => (e.1, serializeField e.2)))) from by
        simp [List.lookup]]
    rw [Option.getD_some]
    rw [lookup_map_val]
    rw [lookup_hSet_left ((r0.hashes.lookup call_id).getD [])
      (payload.map (fun e => (e.1, serializeField e.2))) k
      (by rw [lookup_map_val, hkv]; rfl)]
    rw [lookup_map_val, hkv]
    rfl
  refine ⟨by rw [hclaim], ?_⟩
  intro k v hkv
  refine ⟨?_, ?_, ?_⟩
  · intro d hvd hfd
    rw [hget k v hkv, hvd]
    rw [show serializeField (PyVal.dict d) = dumps (PyVal.dict d) from rfl]
    rw [maybeJson_dumps (PyVal.dict d) (by simpa [noFloat] using hfd)]
  · intro l hvl hfl
    rw [hget k v hkv, hvl]
    rw [show serializeField (PyVal.list l) = dumps (PyVal.list l) from rfl]
    rw [maybeJson_dumps (PyVal.list l) (by simpa [noFloat] using hfl)]
  · intro s hvs hps
    rw [hget k v hkv, hvs]
    rw [show serializeField (PyVal.str s) = s from rfl]
    rw [maybeJson_of_parse_none s hps]

/-- C4 witness: a concrete payload with a dict field and a non-json string
field written at time 0 with no delay, claimed at time 0 in a fresh store,
comes back with the dict decoded equal and the string verbatim. -/
theorem C4_payload_roundtrip_witness :
    zsetOf RedisState.empty "c" = [] ∧ (0 : Int) + 0 ≤ 0 ∧
    (claim_due_retries "c" 1 0
        (save_failure_and_schedule_retry "c" "X"
          [(['a'], PyVal.dict [(['k'], PyVal.int 5)]),
           (['b'], PyVal.str ['h', 'i'])] 0 0 RedisState.empty)).1 = ["X"] ∧
    (get_call_payload "X"
        (claim_due_retries "c" 1 0
          (save_failure_and_schedule_retry "c" "X"
            [(['a'], PyVal.dict [(['k'], PyVal.int 5)]),
             (['b'], PyVal.str ['h', 'i'])] 0 0 RedisState.empty)).2).lookup
        ['a'] = Option.some (PyVal.dict [(['k'], PyVal.int 5)]) ∧
    (get_call_payload "X"
        (claim_due_retries "c" 1 0
          (save_failure_and_schedule_retry "c" "X"
            [(['a'], PyVal.dict [(['k'], PyVal.int 5)]),
             (['b'], PyVal.str ['h', 'i'])] 0 0 RedisState.empty)).2).lookup
        ['b'] = Option.some (PyVal.str ['h', 'i']) := by
  refine ⟨rfl, by decide, ?_, ?_, ?_⟩
  · exact (C4_payload_roundtrip "c" "X"
      [(['a'], PyVal.dict [(['k'], PyVal.int 5)]),
       (['b'], PyVal.str ['h', 'i'])] 0 0 0 0 RedisState.empty rfl
      (by decide)).1
  · exact (((C4_payload_roundtrip "c" "X"
      [(['a'], PyVal.dict [(['k'], PyVal.int 5)]),
       (['b'], PyVal.str ['h', 'i'])] 0 0 0 0 RedisState.empty rfl
      (by decide)).2 ['a'] (PyVal.dict [(['k'], PyVal.int 5)]) rfl).1
      [(['k'], PyVal.int 5)] rfl rfl)
  · exact (((C4_payload_roundtrip "c" "X"
      [(['a'], PyVal.dict [(['k'], PyVal.int 5)]),
       (['b'], PyVal.str ['h', 'i'])] 0 0 0 0 RedisState.empty rfl
      (by decide)).2 ['b'] (PyVal.str ['h', 'i']) rfl).2.2
      ['h', 'i'] rfl rfl)

end Aitele
